import Mathlib

/-!
Verification of the `surf-parse` crate (SurfDoc parser) against its
natural-language specification.

The Rust sources are shallowly embedded: strings are modelled as `List Char`
(`Str`), byte offsets become character offsets (the code only ever slices at
line boundaries, so the two models are structurally identical), `usize`
arithmetic becomes `Nat` arithmetic, and the two source slices whose bounds
are justified by scanner invariants are modelled with a checked slice
returning `Option` — so `parse` returns `Option ParseResult`, with `none`
exactly at a would-be Rust panic.  The external `serde_yaml` front-matter
parser is a parameter (`yamlP`) of `parse`: every theorem quantifying over
it holds for any behaviour of that external library.

Rust `char::is_whitespace` / `is_alphanumeric` / `is_alphabetic` are
modelled by Lean's ASCII-flavoured `Char.isWhitespace` / `Char.isAlphanum` /
`Char.isAlpha`; the difference only concerns exotic Unicode classes and
affects none of the properties proved here.  `f64` attribute values are
modelled exactly (as rationals plus infinity/NaN markers) rather than with
binary rounding; no claim distinguishes two floating-point values.
-/

namespace Surf

/-- Strings of the Rust source are embedded as lists of characters. -/
abbrev Str := List Char

/-- Embed a Lean string literal as a `Str`. -/
def chars (s : String) : Str := s.data

/-- A single-quote character (used inside diagnostic messages). -/
def sq : Char := '\''

/-- Rust `str::trim` (drop leading and trailing whitespace). -/
def trimStr (s : Str) : Str :=
  ((s.dropWhile Char.isWhitespace).reverse.dropWhile Char.isWhitespace).reverse

/-- Rust `usize → String` digits (used in diagnostic messages). -/
def natChars (n : Nat) : Str := Nat.toDigits 10 n

/-- Rust `str::split('\n')`: always at least one piece, keeps empty pieces. -/
def splitLines : Str → List Str
  | [] => [[]]
  | c :: rest =>
    if c = '\n' then [] :: splitLines rest
    else
      match splitLines rest with
      | [] => [[c]]
      | l :: ls => (c :: l) :: ls

/-- Rust `str::lines()`: like `split('\n')` but a trailing empty piece is
dropped (CR handling is irrelevant after CRLF normalisation). -/
def rustLines (s : Str) : List Str :=
  let ls := splitLines s
  if ls.getLast? = some [] then ls.dropLast else ls

/-- Rust `[T]::join` / `Vec<String>::join` on the embedded strings. -/
def joinSep (sep : Str) : List Str → Str
  | [] => []
  | [l] => l
  | l :: ls => l ++ sep ++ joinSep sep ls

/-- Rust `str::replace("\r\n", "\n")` (CRLF normalisation, left to right). -/
def normalizeCRLF : Str → Str
  | [] => []
  | '\r' :: '\n' :: rest => '\n' :: normalizeCRLF rest
  | c :: rest => c :: normalizeCRLF rest

/-- Rust `str::strip_suffix('\n').unwrap_or(s)`. -/
def stripNewlineSuffix (s : Str) : Str :=
  match s.getLast? with
  | some '\n' => s.dropLast
  | _ => s

/-- Rust `str::starts_with` on the embedding. -/
def startsWith (pre s : Str) : Bool := pre.isPrefixOf s

/-- Checked slice `&source[a..b]`: `none` exactly when Rust would panic
(out-of-range bounds; character boundaries are automatic in this model). -/
def sliceChk (s : Str) (a b : Nat) : Option Str :=
  if a ≤ b ∧ b ≤ s.length then some ((s.drop a).take (b - a)) else none

/-- Total slice for call sites the Rust code itself guards. -/
def sliceTot (s : Str) (a b : Nat) : Str := (s.drop a).take (b - a)

-- ------------------------------------------------------------------
-- Attribute values (`types.rs`: `AttrValue`, `Attrs`)
-- ------------------------------------------------------------------

/-- The numeric payload of an attribute: Rust `f64` modelled exactly. -/
inductive NumVal where
  | fin (q : ℚ)
  | inf
  | neginf
  | nan
deriving DecidableEq, Repr

/-- `AttrValue` from `types.rs`. -/
inductive AttrValue where
  | str (s : Str)
  | num (v : NumVal)
  | bool (b : Bool)
  | null
deriving DecidableEq, Repr

/-- `Attrs = BTreeMap<String, AttrValue>`: a key-sorted association list
(byte order on UTF-8 strings coincides with code-point order). -/
abbrev Attrs := List (Str × AttrValue)

/-- Code-point (= UTF-8 byte) lexicographic order on keys. -/
def keyLt : Str → Str → Bool
  | [], [] => false
  | [], _ :: _ => true
  | _ :: _, [] => false
  | a :: as, b :: bs => if a = b then keyLt as bs else decide (a < b)

/-- `BTreeMap::insert` (replaces the value when the key is present). -/
def attrsInsert (k : Str) (v : AttrValue) : Attrs → Attrs
  | [] => [(k, v)]
  | (k', v') :: rest =>
    if keyLt k k' then (k, v) :: (k', v') :: rest
    else if k = k' then (k, v) :: rest
    else (k', v') :: attrsInsert k v rest

/-- `BTreeMap::get`. -/
def attrsGet (m : Attrs) (k : Str) : Option AttrValue :=
  (m.find? (fun p => p.1 == k)).map Prod.snd

-- ------------------------------------------------------------------
-- Rust `f64::from_str` grammar (exact-value model)
-- ------------------------------------------------------------------

/-- Decimal digits to a natural number. -/
def digitsToNat (ds : Str) : Nat :=
  ds.foldl (fun acc c => 10 * acc + (c.toNat - '0'.toNat)) 0

/-- Case-insensitive comparison against an ASCII keyword. -/
def eqCaseInsensitive (s : Str) (kw : Str) : Bool :=
  (s.map Char.toLower) = kw

/-- Rust `f64::from_str` on the remainder after the optional sign:
`inf`/`infinity`/`nan` keywords or `digits[.digits][(e|E)[sign]digits]`,
consuming the entire input.  The finite value is exact. -/
def parseF64Body (s : Str) : Option NumVal :=
  if eqCaseInsensitive s (chars "inf") ∨ eqCaseInsensitive s (chars "infinity") then
    some .inf
  else if eqCaseInsensitive s (chars "nan") then
    some .nan
  else
    let intPart := s.takeWhile Char.isDigit
    let rest1 := s.drop intPart.length
    let (fracPart, rest2) :=
      match rest1 with
      | '.' :: t => (t.takeWhile Char.isDigit, t.drop (t.takeWhile Char.isDigit).length)
      | _ => ([], rest1)
    let hasDot := decide (rest1.head? = some '.')
    if intPart = [] ∧ (¬ hasDot ∨ fracPart = []) then none
    else
      let mNum : Nat := digitsToNat intPart * 10 ^ fracPart.length + digitsToNat fracPart
      let mDen : Nat := 10 ^ fracPart.length
      match rest2 with
      | [] => some (.fin (mkRat mNum mDen))
      | e :: t =>
        if e = 'e' ∨ e = 'E' then
          let (negExp, t2) :=
            match t with
            | '-' :: t' => (true, t')
            | '+' :: t' => (false, t')
            | _ => (false, t)
          let expDigits := t2.takeWhile Char.isDigit
          if expDigits = [] ∨ t2.drop expDigits.length ≠ [] then none
          else
            let ex := digitsToNat expDigits
            some (.fin (if negExp then mkRat mNum (mDen * 10 ^ ex)
              else mkRat (mNum * 10 ^ ex) mDen))
        else none

/-- Rust `f64::from_str`: optional sign, then `parseF64Body`. -/
def parseF64 (s : Str) : Option NumVal :=
  match s with
  | [] => none
  | '-' :: t =>
    (parseF64Body t).map fun v =>
      match v with
      | .fin q => .fin (-q)
      | .inf => .neginf
      | .neginf => .neginf
      | .nan => .nan
  | '+' :: t => parseF64Body t
  | _ => parseF64Body s

-- ------------------------------------------------------------------
-- Attribute parser (`attrs.rs`)
-- ------------------------------------------------------------------

/-- `ParseError::InvalidAttrs` payload from `error.rs`. -/
structure AttrsError where
  message : Str
  startOffset : Nat
  endOffset : Nat
deriving DecidableEq, Repr

/-- `coerce_value` from `attrs.rs`: unquoted-value coercion. -/
def coerceValue (raw : Str) : AttrValue :=
  if raw = chars "true" then .bool true
  else if raw = chars "false" then .bool false
  else if raw = chars "null" then .null
  else
    match parseF64 raw with
    | some v => .num v
    | none => .str raw

/-- The quoted-value loop of `parse_attrs` (`attrs.rs` lines 76–95).
Returns the unescaped value, the number of characters consumed, and the
remaining input (whose head is the closing quote when one exists). -/
def quotedValueLoop : Str → Nat → Str → (Str × Nat × Str)
  | acc, used, [] => (acc, used, [])
  | acc, used, '"' :: rest => (acc, used, '"' :: rest)
  | acc, used, '\\' :: next :: rest =>
    if next = '"' ∨ next = '\\' then quotedValueLoop (acc ++ [next]) (used + 2) rest
    else quotedValueLoop (acc ++ ['\\']) (used + 1) (next :: rest)
  | acc, used, c :: rest => quotedValueLoop (acc ++ [c]) (used + 1) rest

/-- Key characters: alphanumeric, hyphen, underscore. -/
def isKeyChar (c : Char) : Bool := c.isAlphanum || c = '-' || c = '_'

/-- The token loop of `parse_attrs` (`attrs.rs` lines 28–123); `pos` is the
absolute index of the head of `s` within the bracket-stripped input. -/
def parseAttrsLoop : Nat → Str → Nat → Attrs → Except AttrsError Attrs
  | 0, _, _, attrs => .ok attrs
  | fuel + 1, s, pos, attrs =>
    let ws := s.takeWhile Char.isWhitespace
    let s1 := s.drop ws.length
    let pos1 := pos + ws.length
    match s1 with
    | [] => .ok attrs
    | c :: _ =>
      let key := s1.takeWhile isKeyChar
      if key = [] then
        .error ⟨chars "unexpected character " ++ [sq, c, sq] ++ chars " at position "
                  ++ natChars pos1, pos1, pos1 + 1⟩
      else
        let s2 := s1.drop key.length
        let pos2 := pos1 + key.length
        match s2 with
        | '=' :: s3 =>
          match s3 with
          | [] =>
            .error ⟨chars "missing value after " ++ [sq, '=', sq] ++ chars " for key "
                      ++ [sq] ++ key ++ [sq], pos2 + 1, pos2 + 1⟩
          | '"' :: s4 =>
            let (value, used, rest) := quotedValueLoop [] 0 s4
            match rest with
            | '"' :: s5 =>
              parseAttrsLoop fuel s5 (pos2 + 2 + used + 1)
                (attrsInsert key (.str value) attrs)
            | _ =>
              .error ⟨chars "unterminated quoted value for key " ++ [sq] ++ key ++ [sq],
                        pos1, pos2 + 2 + used⟩
          | _ =>
            let raw := s3.takeWhile (fun ch => !ch.isWhitespace && ch != ']')
            let s4 := s3.drop raw.length
            parseAttrsLoop fuel s4 (pos2 + 1 + raw.length)
              (attrsInsert key (coerceValue raw) attrs)
        | _ => parseAttrsLoop fuel s2 pos2 (attrsInsert key (.bool true) attrs)

/-- `parse_attrs` from `attrs.rs`: strips one surrounding bracket pair, then
runs the token loop. -/
def parseAttrs (input : Str) : Except AttrsError Attrs :=
  let trimmed := trimStr input
  let inner :=
    if startsWith (chars "[") trimmed ∧ trimmed.getLast? = some ']' then
      trimmed.drop 1 |>.dropLast
    else trimmed
  parseAttrsLoop (inner.length + 1) inner 0 []

-- ------------------------------------------------------------------
-- Data model (`types.rs`, `error.rs`)
-- ------------------------------------------------------------------

/-- `Severity` from `error.rs`. -/
inductive Severity where
  | error
  | warning
  | info
deriving DecidableEq, Repr

/-- `Span` from `types.rs` (1-based lines, 0-based offsets). -/
structure Span where
  startLine : Nat
  endLine : Nat
  startOffset : Nat
  endOffset : Nat
deriving DecidableEq, Repr

/-- `Diagnostic` from `error.rs`. -/
structure Diagnostic where
  severity : Severity
  message : Str
  span : Option Span
  code : Option Str
deriving DecidableEq, Repr

/-- `DocType` from `types.rs`. -/
inductive DocType where
  | doc | guide | conversation | plan | agent | preference | report | proposal
  | incident | review
deriving DecidableEq, Repr

/-- `FrontMatter` from `types.rs`, restricted to the fields the validator
inspects (`title`, `doc_type`); the other fields never influence any
behaviour verified here. -/
structure FrontMatter where
  title : Option Str
  docType : Option DocType
deriving DecidableEq, Repr

inductive CalloutType where
  | info | warning | danger | tip | note | success
deriving DecidableEq, Repr

inductive DataFormat where
  | table | csv | json
deriving DecidableEq, Repr

inductive DecisionStatus where
  | proposed | accepted | rejected | superseded
deriving DecidableEq, Repr

inductive Trend where
  | up | down | flat
deriving DecidableEq, Repr

structure TaskItem where
  done : Bool
  text : Str
  assignee : Option Str
deriving DecidableEq, Repr

structure TabPanel where
  label : Str
  content : Str
deriving DecidableEq, Repr

structure ColumnContent where
  content : Str
deriving DecidableEq, Repr

structure StyleProperty where
  key : Str
  value : Str
deriving DecidableEq, Repr

structure FaqItem where
  question : Str
  answer : Str
deriving DecidableEq, Repr

structure NavItem where
  label : Str
  href : Str
  icon : Option Str
deriving DecidableEq, Repr

/-- `Block` from `types.rs`: the closed tagged union of block variants. -/
inductive Block where
  | unknown (name : Str) (attrs : Attrs) (content : Str) (span : Span)
  | markdown (content : Str) (span : Span)
  | callout (calloutType : CalloutType) (title : Option Str) (content : Str) (span : Span)
  | data (id : Option Str) (format : DataFormat) (sortable : Bool) (headers : List Str)
      (rows : List (List Str)) (rawContent : Str) (span : Span)
  | code (lang : Option Str) (file : Option Str) (highlight : List Str) (content : Str)
      (span : Span)
  | tasks (items : List TaskItem) (span : Span)
  | decision (status : DecisionStatus) (date : Option Str) (deciders : List Str)
      (content : Str) (span : Span)
  | metric (label : Str) (value : Str) (trend : Option Trend) (unit : Option Str) (span : Span)
  | summary (content : Str) (span : Span)
  | figure (src : Str) (caption : Option Str) (alt : Option Str) (width : Option Str)
      (span : Span)
  | tabs (tabs : List TabPanel) (span : Span)
  | columns (columns : List ColumnContent) (span : Span)
  | quote (content : Str) (attribution : Option Str) (cite : Option Str) (span : Span)
  | cta (label : Str) (href : Str) (primary : Bool) (icon : Option Str) (span : Span)
  | nav (items : List NavItem) (logo : Option Str) (span : Span)
  | heroImage (src : Str) (alt : Option Str) (span : Span)
  | testimonial (content : Str) (author : Option Str) (role : Option Str)
      (company : Option Str) (span : Span)
  | style (properties : List StyleProperty) (span : Span)
  | faq (items : List FaqItem) (span : Span)
  | pricingTable (headers : List Str) (rows : List (List Str)) (span : Span)
  | site (domain : Option Str) (properties : List StyleProperty) (span : Span)
  | page (route : Str) (layout : Option Str) (title : Option Str) (sidebar : Bool)
      (content : Str) (children : List Block) (span : Span)
deriving Repr

/-- The span carried by a block (every variant carries one). -/
def Block.span : Block → Span
  | .unknown _ _ _ sp => sp
  | .markdown _ sp => sp
  | .callout _ _ _ sp => sp
  | .data _ _ _ _ _ _ sp => sp
  | .code _ _ _ _ sp => sp
  | .tasks _ sp => sp
  | .decision _ _ _ _ sp => sp
  | .metric _ _ _ _ sp => sp
  | .summary _ sp => sp
  | .figure _ _ _ _ sp => sp
  | .tabs _ sp => sp
  | .columns _ sp => sp
  | .quote _ _ _ sp => sp
  | .cta _ _ _ _ sp => sp
  | .nav _ _ sp => sp
  | .heroImage _ _ sp => sp
  | .testimonial _ _ _ _ sp => sp
  | .style _ sp => sp
  | .faq _ sp => sp
  | .pricingTable _ _ sp => sp
  | .site _ _ sp => sp
  | .page _ _ _ _ _ _ sp => sp

/-- `SurfDoc` from `types.rs`. -/
structure SurfDoc where
  frontMatter : Option FrontMatter
  blocks : List Block
  source : Str
deriving Repr

/-- `ParseResult` from `parse.rs`. -/
structure ParseResult where
  doc : SurfDoc
  diagnostics : List Diagnostic
deriving Repr

-- ------------------------------------------------------------------
-- Line classification and offset helpers (`parse.rs` lines 360–460)
-- ------------------------------------------------------------------

/-- `closing_directive_depth`: a line of only `:`, at least two of them. -/
def closingDirectiveDepth (trimmed : Str) : Option Nat :=
  if trimmed ≠ [] ∧ trimmed.all (fun c => c = ':') ∧ 2 ≤ trimmed.length then
    some trimmed.length
  else none

/-- `opening_directive`: `::name[attrs]`, returning depth, name, raw attrs. -/
def openingDirective (trimmed : Str) : Option (Nat × Str × Str) :=
  if ¬ startsWith (chars "::") trimmed then none
  else
    let depth := (trimmed.takeWhile (fun c => c = ':')).length
    if depth < 2 then none
    else
      let rest := trimmed.drop depth
      match rest.head? with
      | none => none
      | some first =>
        if ¬ first.isAlpha then none
        else
          let name := rest.takeWhile isKeyChar
          let remainder := rest.drop name.length
          let attrsStr :=
            if startsWith (chars "[") remainder then
              match remainder.findIdx? (fun c => c = ']') with
              | some close => remainder.take (close + 1)
              | none => remainder
            else []
          some (depth, name, attrsStr)

/-- `byte_offset_start_of_line` core: offset of the start of line `idx`,
`none` when `idx` is past the last line. -/
def lineStartCore : List Str → Nat → Option Nat
  | [], _ => none
  | _ :: _, 0 => some 0
  | l :: rest, n + 1 => (lineStartCore rest n).map (fun o => l.length + 1 + o)

/-- `byte_offset_end_of_line` core. -/
def lineEndCore : List Str → Nat → Option Nat
  | [], _ => none
  | l :: _, 0 => some l.length
  | l :: rest, n + 1 => (lineEndCore rest n).map (fun o => l.length + 1 + o)

/-- `byte_offset_start_of_line` from `parse.rs` (falls back to `len`). -/
def byteStartOfLine (src : Str) (idx : Nat) : Nat :=
  (lineStartCore (splitLines src) idx).getD src.length

/-- `byte_offset_end_of_line` from `parse.rs` (falls back to `len`). -/
def byteEndOfLine (src : Str) (idx : Nat) : Nat :=
  (lineEndCore (splitLines src) idx).getD src.length

/-- `line_span` from `parse.rs`. -/
def lineSpan (startIdx endIdx : Nat) (src : Str) : Span :=
  ⟨startIdx + 1, endIdx + 1, byteStartOfLine src startIdx, byteEndOfLine src endIdx⟩

-- ------------------------------------------------------------------
-- Directive scanner (`parse.rs` lines 121–358)
-- ------------------------------------------------------------------

/-- `OpenBlock` from `parse.rs`: an in-progress directive on the stack. -/
structure OpenBlock where
  name : Str
  attrs : Attrs
  depth : Nat
  startLine : Nat
  startOffset : Nat
  contentStartOffset : Nat
deriving DecidableEq, Repr

/-- The scanner's mutable state; the head of `stack` is the top. -/
structure ScanState where
  blocks : List Block
  stack : List OpenBlock
  mdLine : Option Nat
  mdOff : Option Nat
  diags : List Diagnostic
deriving Repr

/-- Find the innermost open block of the given depth (`rposition` searches
from the top of the stack); returns the orphans above it, the match, and
the rest below. -/
def findClose : List OpenBlock → Nat → Option (List OpenBlock × OpenBlock × List OpenBlock)
  | [], _ => none
  | ob :: rest, d =>
    if ob.depth = d then some ([], ob, rest)
    else (findClose rest d).map (fun (orph, tgt, below) => (ob :: orph, tgt, below))

/-- The `W001` unclosed-directive warning. -/
def unclosedDiag (name : Str) (startLine : Nat) (sp : Span) : Diagnostic :=
  ⟨.warning,
    chars "Unclosed block directive " ++ [sq] ++ name ++ [sq] ++ chars " opened at line "
      ++ natChars startLine,
    some sp, some (chars "W001")⟩

/-- Is line `i` present and blank after trimming? -/
def emptyLineAt (lines : List Str) (i : Nat) : Bool :=
  match lines[i]? with
  | some l => trimStr l == []
  | none => false

/-- The backwards walk of `flush_markdown` past trailing blank lines. -/
def trimBackEmpty (lines : List Str) (startIdx : Nat) : Nat → Nat
  | 0 => 0
  | e + 1 =>
    if startIdx < e + 1 ∧ emptyLineAt lines (e + 1) then
      trimBackEmpty lines startIdx e
    else e + 1

/-- `flush_markdown` from `parse.rs`: emit the pending markdown gap.  The
slice is checked; `none` is a would-be panic. -/
def flushMarkdown (src : Str) (currentIdx : Nat) (mdLine mdOff : Option Nat)
    (blocks : List Block) : Option (List Block × Option Nat × Option Nat) :=
  match mdLine, mdOff with
  | some startIdx, some startOff =>
    let endIdx := trimBackEmpty (splitLines src) startIdx (currentIdx - 1)
    let endOffset := byteEndOfLine src endIdx
    (sliceChk src startOff endOffset).map fun content =>
      if trimStr content ≠ [] then
        (blocks ++ [.markdown content ⟨startIdx + 1, endIdx + 1, startOff, endOffset⟩],
          none, none)
      else (blocks, none, none)
  | _, _ => some (blocks, mdLine, mdOff)

/-- One iteration of the scanner loop of `scan_blocks` (`parse.rs` lines
150–262) on the line with 0-based index `idx`. -/
def scanStep (src : Str) (idx : Nat) (line : Str) (st : ScanState) : Option ScanState :=
  let trimmed := trimStr line
  let lineOffset := byteStartOfLine src idx
  match (closingDirectiveDepth trimmed).bind (findClose st.stack) with
  | some (orphans, target, below) =>
    let orphanDiags := orphans.map fun orph =>
      unclosedDiag orph.name orph.startLine
        ⟨orph.startLine, idx + 1, orph.startOffset, lineOffset + line.length⟩
    let diags := st.diags ++ orphanDiags
    if below = [] then
      (sliceChk src target.contentStartOffset lineOffset).map fun content =>
        let content := stripNewlineSuffix content
        { blocks := st.blocks ++
            [.unknown target.name target.attrs content
              ⟨target.startLine, idx + 1, target.startOffset, lineOffset + line.length⟩],
          stack := below, mdLine := none, mdOff := none, diags := diags }
    else
      some { st with stack := below, diags := diags }
  | none =>
    match openingDirective trimmed with
    | some (depth, name, attrsStr) =>
      if st.stack = [] then
        (flushMarkdown src idx st.mdLine st.mdOff st.blocks).map fun (blocks, ml, mo) =>
          let (attrs, diags) :=
            match parseAttrs attrsStr with
            | .ok a => (a, st.diags)
            | .error e =>
              ([], st.diags ++
                [⟨.warning,
                  chars "Invalid attributes on " ++ [sq] ++ chars "::" ++ name ++ [sq]
                    ++ chars ": Invalid attribute syntax: " ++ e.message,
                  some (lineSpan idx idx src), some (chars "W002")⟩])
          let contentStart := min (lineOffset + line.length + 1) src.length
          { blocks := blocks,
            stack := [⟨name, attrs, depth, idx + 1, lineOffset, contentStart⟩],
            mdLine := ml, mdOff := mo, diags := diags }
      else
        some { st with
          stack := ⟨name, [], depth, idx + 1, lineOffset, 0⟩ :: st.stack }
    | none =>
      if st.stack = [] ∧ st.mdLine = none then
        some { st with mdLine := some idx, mdOff := some lineOffset }
      else some st

/-- The scanner loop over the body lines starting at index `idx`. -/
def scanLinesGo (src : Str) : Nat → List Str → ScanState → Option ScanState
  | _, [], st => some st
  | idx, line :: rest, st =>
    (scanStep src idx line st).bind (scanLinesGo src (idx + 1) rest)

/-- The end-of-input force-close loop (`parse.rs` lines 273–315): pop every
still-open directive, warn, and emit only the outermost one. -/
def eofClose (src : Str) (numLines : Nat) :
    List OpenBlock → List Block → List Diagnostic → List Block × List Diagnostic
  | [], blocks, diags => (blocks, diags)
  | ob :: restStack, blocks, diags =>
    let diags := diags ++
      [unclosedDiag ob.name ob.startLine ⟨ob.startLine, numLines, ob.startOffset, src.length⟩]
    let blocks :=
      if restStack = [] then
        let content :=
          if ob.contentStartOffset ≤ src.length then
            sliceTot src ob.contentStartOffset src.length
          else []
        blocks ++ [.unknown ob.name ob.attrs (stripNewlineSuffix content)
          ⟨ob.startLine, numLines, ob.startOffset, src.length⟩]
      else blocks
    eofClose src numLines restStack blocks diags

/-- `scan_blocks` from `parse.rs`: the full line scan including the final
markdown flush and the EOF force-close. -/
def scanBlocks (src : Str) (lines : List Str) (bodyStart : Nat)
    (diags0 : List Diagnostic) : Option (List Block × List Diagnostic) :=
  (scanLinesGo src bodyStart (lines.drop bodyStart)
      ⟨[], [], none, none, diags0⟩).bind fun st =>
  (flushMarkdown src lines.length st.mdLine st.mdOff st.blocks).map fun (blocks, _, _) =>
  eofClose src lines.length st.stack blocks st.diags

-- ------------------------------------------------------------------
-- Front matter (`parse.rs` lines 60–115)
-- ------------------------------------------------------------------

/-- Find the index of the closing `---` line, starting from line 1. -/
def findFMClose (lines : List Str) : Option Nat :=
  (lines.drop 1).findIdx? (fun l => trimStr l = chars "---") |>.map (· + 1)

/-- `extract_front_matter` from `parse.rs`.  The external `serde_yaml`
parser is the parameter `yamlP`; any total behaviour of it is covered. -/
def extractFrontMatter (yamlP : Str → Except Str FrontMatter) (lines : List Str)
    (src : Str) : Option FrontMatter × Nat × List Diagnostic :=
  if lines = [] ∨ trimStr (lines.headD []) ≠ chars "---" then (none, 0, [])
  else
    match findFMClose lines with
    | none =>
      (none, 0,
        [⟨.error, chars "Front matter opened with `---` but never closed",
          some (lineSpan 0 0 src), some (chars "E001")⟩])
    | some endIdx =>
      let yamlStr := joinSep (chars "\n") ((lines.drop 1).take (endIdx - 1))
      let fmSpan : Span := ⟨1, endIdx + 1, 0, byteEndOfLine src endIdx⟩
      match yamlP yamlStr with
      | .ok fm => (some fm, endIdx + 1, [])
      | .error e =>
        (none, endIdx + 1,
          [⟨.error, chars "Failed to parse front matter YAML: " ++ e, some fmSpan,
            some (chars "E002")⟩])

-- ------------------------------------------------------------------
-- Attribute extraction helpers (`blocks.rs` lines 52–65)
-- ------------------------------------------------------------------

/-- Zero-padded decimal digits. -/
def natCharsPad (n width : Nat) : Str :=
  let s := natChars n
  List.replicate (width - s.length) '0' ++ s

/-- Smallest `k` (bounded search) with `d ∣ 10^k`. -/
def findPow10 (d : Nat) : Nat → Nat → Option Nat
  | k, 0 => if 10 ^ k % d = 0 then some k else none
  | k, fuel + 1 => if 10 ^ k % d = 0 then some k else findPow10 d (k + 1) fuel

/-- Decimal rendering of an exact rational, mirroring Rust's `f64` `Display`
on the plain-decimal values that occur in practice (`42` → `42`,
`3.14` → `3.14`); binary shortest-round-trip formatting and exponent
notation for extreme magnitudes are not modelled — no verified property
depends on this rendering. -/
def qToDecimalChars (q : ℚ) : Str :=
  let sign : Str := if q < 0 then ['-'] else []
  let n := q.num.natAbs
  let d := q.den
  match findPow10 d 0 512 with
  | some 0 => sign ++ natChars (n / d)
  | some k =>
    let scaled := n * 10 ^ k / d
    sign ++ natChars (scaled / 10 ^ k) ++ ['.'] ++ natCharsPad (scaled % 10 ^ k) k
  | none => sign ++ natChars n ++ ['/'] ++ natChars d

/-- Rust `f64` `Display` on the embedded numeric value. -/
def numToString : NumVal → Str
  | .fin q => qToDecimalChars q
  | .inf => chars "inf"
  | .neginf => chars "-inf"
  | .nan => chars "NaN"

/-- `attr_string` from `blocks.rs`. -/
def attrString (attrs : Attrs) (key : String) : Option Str :=
  match attrsGet attrs (chars key) with
  | some (.str s) => some s
  | some (.num v) => some (numToString v)
  | some (.bool b) => some (chars (if b then "true" else "false"))
  | some .null => none
  | none => none

/-- `attr_bool` from `blocks.rs`. -/
def attrBool (attrs : Attrs) (key : String) : Bool :=
  attrsGet attrs (chars key) = some (.bool true)

/-- Rust `str::split_once(c)`. -/
def splitOnceChar (c : Char) (s : Str) : Option (Str × Str) :=
  match s.findIdx? (fun x => x = c) with
  | some i => some (s.take i, s.drop (i + 1))
  | none => none

/-- Rust `str::split(c)` (keeps empty pieces, never empty). -/
def splitOnChar (c : Char) : Str → List Str
  | [] => [[]]
  | x :: rest =>
    if x = c then [] :: splitOnChar c rest
    else
      match splitOnChar c rest with
      | [] => [[x]]
      | l :: ls => (x :: l) :: ls

/-- Rust `str::trim_matches(c)`. -/
def trimMatchChar (c : Char) (s : Str) : Str :=
  ((s.dropWhile (fun x => x = c)).reverse.dropWhile (fun x => x = c)).reverse

/-- Rust `str::trim_end`. -/
def trimEnd (s : Str) : Str := (s.reverse.dropWhile Char.isWhitespace).reverse

/-- Rust `str::strip_prefix(pre)` for a string pattern. -/
def stripPrefixStr (pre s : Str) : Option Str :=
  if pre.isPrefixOf s then some (s.drop pre.length) else none

-- ------------------------------------------------------------------
-- Table/CSV content grammar (`blocks.rs` lines 124–205)
-- ------------------------------------------------------------------

/-- `is_table_separator` from `blocks.rs`. -/
def isTableSeparator (line : Str) : Bool :=
  let stripped := trimStr (trimMatchChar '|' (trimStr line))
  if stripped = [] then false
  else (splitOnChar '|' stripped).all
    (fun cell => (trimStr cell).all (fun c => c = '-' ∨ c = ':'))

/-- `split_pipe_row` from `blocks.rs`. -/
def splitPipeRow (line : Str) : List Str :=
  let trimmed := trimStr line
  let inner := (stripPrefixStr (chars "|") trimmed).getD trimmed
  let inner :=
    match inner.getLast? with
    | some '|' => inner.dropLast
    | _ => inner
  (splitOnChar '|' inner).map trimStr

/-- The line loop of `parse_table_content`. -/
def tableGo : List Str → Bool → List Str → List (List Str) → List Str × List (List Str)
  | [], _, hs, rs => (hs, rs)
  | l :: rest, headerDone, hs, rs =>
    let t := trimStr l
    if t = [] then tableGo rest headerDone hs rs
    else if isTableSeparator t then tableGo rest headerDone hs rs
    else
      let cells := splitPipeRow t
      if headerDone then tableGo rest headerDone hs (rs ++ [cells])
      else tableGo rest true cells rs

/-- `parse_table_content` from `blocks.rs`. -/
def parseTableContent (content : Str) : List Str × List (List Str) :=
  tableGo (rustLines content) false [] []

/-- The line loop of `parse_csv_content`. -/
def csvGo : List Str → Bool → List Str → List (List Str) → List Str × List (List Str)
  | [], _, hs, rs => (hs, rs)
  | l :: rest, headerDone, hs, rs =>
    let t := trimStr l
    if t = [] then csvGo rest headerDone hs rs
    else
      let cells := (splitOnChar ',' t).map trimStr
      if headerDone then csvGo rest headerDone hs (rs ++ [cells])
      else csvGo rest true cells rs

/-- `parse_csv_content` from `blocks.rs`. -/
def parseCsvContent (content : Str) : List Str × List (List Str) :=
  csvGo (rustLines content) false [] []

-- ------------------------------------------------------------------
-- Per-block parsers (`blocks.rs` lines 71–614)
-- ------------------------------------------------------------------

/-- `parse_callout`. -/
def parseCallout (attrs : Attrs) (content : Str) (sp : Span) : Block :=
  let calloutType :=
    match (attrString attrs "type").map fun s =>
        if s = chars "info" then some CalloutType.info
        else if s = chars "warning" then some CalloutType.warning
        else if s = chars "danger" then some CalloutType.danger
        else if s = chars "tip" then some CalloutType.tip
        else if s = chars "note" then some CalloutType.note
        else if s = chars "success" then some CalloutType.success
        else none with
    | some (some t) => t
    | _ => .info
  .callout calloutType (attrString attrs "title") content sp

/-- `parse_data`. -/
def parseData (attrs : Attrs) (content : Str) (sp : Span) : Block :=
  let format :=
    match (attrString attrs "format").map fun s =>
        if s = chars "table" then some DataFormat.table
        else if s = chars "csv" then some DataFormat.csv
        else if s = chars "json" then some DataFormat.json
        else none with
    | some (some f) => f
    | _ => .table
  let (headers, rows) :=
    match format with
    | .table => parseTableContent content
    | .csv => parseCsvContent content
    | .json => ([], [])
  .data (attrString attrs "id") format (attrBool attrs "sortable") headers rows content sp

/-- `parse_code`. -/
def parseCode (attrs : Attrs) (content : Str) (sp : Span) : Block :=
  let highlight :=
    match attrString attrs "highlight" with
    | some s => (splitOnChar ',' s).map trimStr
    | none => []
  .code (attrString attrs "lang") (attrString attrs "file") highlight content sp

/-- The last position of a `" @"` pair (Rust `str::rfind(" @")`). -/
def rfindSpaceAt (s : Str) : Option Nat :=
  (List.range s.length).foldl
    (fun acc i => if s[i]? = some ' ' ∧ s[i + 1]? = some '@' then some i else acc) none

/-- `extract_assignee` from `blocks.rs`. -/
def extractAssignee (text : Str) : Str × Option Str :=
  let trimmed := trimEnd text
  match rfindSpaceAt trimmed with
  | some atPos =>
    let candidate := trimmed.drop (atPos + 2)
    if candidate ≠ [] ∧ ¬ candidate.contains ' ' then
      (trimEnd (trimmed.take atPos), some candidate)
    else (text, none)
  | none => (text, none)

/-- `parse_tasks`. -/
def parseTasks (content : Str) (sp : Span) : Block :=
  let items := (rustLines content).foldl
    (fun acc l =>
      let t := trimStr l
      let parsed :=
        match stripPrefixStr (chars "- [x] ") t with
        | some rest => some (true, rest)
        | none =>
          match stripPrefixStr (chars "- [X] ") t with
          | some rest => some (true, rest)
          | none =>
            match stripPrefixStr (chars "- [ ] ") t with
            | some rest => some (false, rest)
            | none => none
      match parsed with
      | some (done, rest) =>
        let (text, assignee) := extractAssignee rest
        acc ++ [TaskItem.mk done text assignee]
      | none => acc)
    []
  .tasks items sp

/-- `parse_decision`. -/
def parseDecision (attrs : Attrs) (content : Str) (sp : Span) : Block :=
  let status :=
    match (attrString attrs "status").map fun s =>
        if s = chars "proposed" then some DecisionStatus.proposed
        else if s = chars "accepted" then some DecisionStatus.accepted
        else if s = chars "rejected" then some DecisionStatus.rejected
        else if s = chars "superseded" then some DecisionStatus.superseded
        else none with
    | some (some st) => st
    | _ => .proposed
  let deciders :=
    match attrString attrs "deciders" with
    | some s => (splitOnChar ',' s).map trimStr
    | none => []
  .decision status (attrString attrs "date") deciders content sp

/-- `parse_metric`. -/
def parseMetric (attrs : Attrs) (sp : Span) : Block :=
  let trend :=
    match attrString attrs "trend" with
    | some s =>
      if s = chars "up" then some Trend.up
      else if s = chars "down" then some Trend.down
      else if s = chars "flat" then some Trend.flat
      else none
    | none => none
  .metric ((attrString attrs "label").getD []) ((attrString attrs "value").getD [])
    trend (attrString attrs "unit") sp

/-- `parse_summary`. -/
def parseSummary (content : Str) (sp : Span) : Block := .summary content sp

/-- Heading check shared by the tabs loop: `## ` then `### `. -/
def tabHeading (t : Str) : Option Str :=
  match stripPrefixStr (chars "## ") t with
  | some rest => some rest
  | none => stripPrefixStr (chars "### ") t

/-- The line loop of `parse_tabs`; pre-heading lines stay in `curLines`
because the flush only fires when a previous label exists. -/
def tabsGo : List Str → Option Str → List Str → List TabPanel → List TabPanel
  | [], curLabel, curLines, acc =>
    match curLabel with
    | some label => acc ++ [⟨label, trimStr (joinSep (chars "\n") curLines)⟩]
    | none =>
      if curLines ≠ [] then
        let text := trimStr (joinSep (chars "\n") curLines)
        if text ≠ [] then acc ++ [⟨chars "Tab 1", text⟩] else acc
      else acc
  | l :: rest, curLabel, curLines, acc =>
    match tabHeading (trimStr l) with
    | some heading =>
      match curLabel with
      | some label =>
        tabsGo rest (some (trimStr heading)) []
          (acc ++ [⟨label, trimStr (joinSep (chars "\n") curLines)⟩])
      | none => tabsGo rest (some (trimStr heading)) curLines acc
    | none => tabsGo rest curLabel (curLines ++ [l]) acc

/-- `parse_tabs`. -/
def parseTabs (content : Str) (sp : Span) : Block :=
  .tabs (tabsGo (rustLines content) none [] []) sp

/-- The line loop of `parse_columns`. -/
def columnsGo : List Str → List Str → Bool → List ColumnContent →
    List ColumnContent × List Str
  | [], curLines, _, cols => (cols, curLines)
  | l :: rest, curLines, foundSep, cols =>
    let t := trimStr l
    if startsWith (chars ":::column") t then
      if curLines ≠ [] then
        columnsGo rest [] true (cols ++ [⟨trimStr (joinSep (chars "\n") curLines)⟩])
      else columnsGo rest curLines true cols
    else if t = chars ":::" then
      if foundSep then
        columnsGo rest [] foundSep (cols ++ [⟨trimStr (joinSep (chars "\n") curLines)⟩])
      else columnsGo rest curLines foundSep cols
    else if t = chars "---" ∧ ¬ foundSep then
      columnsGo rest [] true (cols ++ [⟨trimStr (joinSep (chars "\n") curLines)⟩])
    else columnsGo rest (curLines ++ [l]) foundSep cols

/-- `parse_columns`. -/
def parseColumns (content : Str) (sp : Span) : Block :=
  let (cols, curLines) := columnsGo (rustLines content) [] false []
  let remaining := trimStr (joinSep (chars "\n") curLines)
  let cols := if remaining ≠ [] then cols ++ [⟨remaining⟩] else cols
  let cols := if cols = [] then [ColumnContent.mk (trimStr content)] else cols
  .columns cols sp

/-- `parse_quote`. -/
def parseQuote (attrs : Attrs) (content : Str) (sp : Span) : Block :=
  let attribution :=
    (attrString attrs "by").orElse fun _ =>
      (attrString attrs "attribution").orElse fun _ => attrString attrs "author"
  let cite :=
    (attrString attrs "cite").orElse fun _ => attrString attrs "source"
  .quote content attribution cite sp

/-- `parse_figure`. -/
def parseFigure (attrs : Attrs) (sp : Span) : Block :=
  .figure ((attrString attrs "src").getD []) (attrString attrs "caption")
    (attrString attrs "alt") (attrString attrs "width") sp

/-- `parse_cta` (the source never sets an icon). -/
def parseCta (attrs : Attrs) (sp : Span) : Block :=
  .cta ((attrString attrs "label").getD []) ((attrString attrs "href").getD [])
    (attrBool attrs "primary") none sp

/-- `parse_hero_image`. -/
def parseHeroImage (attrs : Attrs) (sp : Span) : Block :=
  .heroImage ((attrString attrs "src").getD []) (attrString attrs "alt") sp

/-- `parse_testimonial`. -/
def parseTestimonial (attrs : Attrs) (content : Str) (sp : Span) : Block :=
  let author := (attrString attrs "author").orElse fun _ => attrString attrs "name"
  let role := (attrString attrs "role").orElse fun _ => attrString attrs "title"
  let company := (attrString attrs "company").orElse fun _ => attrString attrs "org"
  .testimonial content author role company sp

/-- The `key: value` line grammar shared by `parse_style` and `parse_site`. -/
def styleProps (content : Str) : List StyleProperty :=
  (rustLines content).foldl
    (fun acc l =>
      let t := trimStr l
      if t = [] then acc
      else
        match splitOnceChar ':' t with
        | some (key, value) =>
          let key := trimStr key
          let value := trimStr value
          if key ≠ [] ∧ value ≠ [] then acc ++ [StyleProperty.mk key value] else acc
        | none => acc)
    []

/-- `parse_style`. -/
def parseStyle (content : Str) (sp : Span) : Block := .style (styleProps content) sp

/-- The line loop of `parse_faq` (`### ` checked before `## `). -/
def faqHeading (t : Str) : Option Str :=
  match stripPrefixStr (chars "### ") t with
  | some rest => some rest
  | none => stripPrefixStr (chars "## ") t

/-- The line loop of `parse_faq`; pre-heading lines stay in `curLines`. -/
def faqGo : List Str → Option Str → List Str → List FaqItem → List FaqItem
  | [], curQ, curLines, acc =>
    match curQ with
    | some q => acc ++ [⟨q, trimStr (joinSep (chars "\n") curLines)⟩]
    | none => acc
  | l :: rest, curQ, curLines, acc =>
    match faqHeading (trimStr l) with
    | some heading =>
      match curQ with
      | some q =>
        faqGo rest (some (trimStr heading)) []
          (acc ++ [⟨q, trimStr (joinSep (chars "\n") curLines)⟩])
      | none => faqGo rest (some (trimStr heading)) curLines acc
    | none => faqGo rest curQ (curLines ++ [l]) acc

/-- `parse_faq`. -/
def parseFaq (content : Str) (sp : Span) : Block :=
  .faq (faqGo (rustLines content) none [] []) sp

/-- `parse_pricing_table`. -/
def parsePricingTable (content : Str) (sp : Span) : Block :=
  let (headers, rows) := parseTableContent content
  .pricingTable headers rows sp

/-- `parse_site`. -/
def parseSite (attrs : Attrs) (content : Str) (sp : Span) : Block :=
  .site (attrString attrs "domain") (styleProps content) sp

-- ------------------------------------------------------------------
-- Page child scanner (`blocks.rs` lines 616–819)
-- ------------------------------------------------------------------

/-- The placeholder span given to every child of a `Page` block. -/
def dummySpan : Span := ⟨0, 0, 0, 0⟩

/-- `flush_md_lines` from `blocks.rs` (content trimmed!). -/
def flushMdLines (md : List Str) : List Block :=
  let text := joinSep (chars "\n") md
  if trimStr text ≠ [] then [.markdown (trimStr text) dummySpan] else []

/-- The loop of `scan_container_close` (`blocks.rs` lines 699–739); `i` is
the absolute index of the head of the remaining lines. -/
def sccGo (openDepth : Nat) : List Str → Nat → Nat → List Str → Option (Str × Nat)
  | [], _, _, _ => none
  | line :: rest, i, nesting, acc =>
    let trimmed := trimStr line
    match closingDirectiveDepth trimmed with
    | some closeDepth =>
      if closeDepth = openDepth ∧ nesting = 0 then
        some (joinSep (chars "\n") acc, i)
      else if 0 < nesting then sccGo openDepth rest (i + 1) (nesting - 1) (acc ++ [line])
      else sccGo openDepth rest (i + 1) nesting (acc ++ [line])
    | none =>
      match openingDirective trimmed with
      | some (nestedDepth, _, _) =>
        if nestedDepth = openDepth ∧ nesting = 0 then none
        else
          sccGo openDepth rest (i + 1)
            (if openDepth < nestedDepth then nesting + 1 else nesting) (acc ++ [line])
      | none => sccGo openDepth rest (i + 1) nesting (acc ++ [line])

/-- `scan_container_close` from `blocks.rs`. -/
def scanContainerClose (lines : List Str) (start : Nat) (openDepth : Nat) :
    Option (Str × Nat) :=
  sccGo openDepth (lines.drop start) start 0 []

/-- `try_parse_leaf_directive` from `blocks.rs`. -/
def tryParseLeafDirective (resolve : Block → Block) (line : Str) : Option Block :=
  let trimmed := trimStr line
  if ¬ startsWith (chars "::") trimmed then none
  else
    let depth := (trimmed.takeWhile (fun c => c = ':')).length
    if depth ≠ 2 then none
    else
      let rest := trimmed.drop 2
      match rest.head? with
      | none => none
      | some first =>
        if ¬ first.isAlpha then none
        else
          let name := rest.takeWhile isKeyChar
          let remainder := rest.drop name.length
          let attrsStr :=
            if startsWith (chars "[") remainder then
              match remainder.findIdx? (fun c => c = ']') with
              | some close => remainder.take (close + 1)
              | none => remainder
            else []
          let attrs := (parseAttrs attrsStr).toOption.getD []
          some (resolve (.unknown name attrs [] dummySpan))

/-- The loop of `parse_page_children` (`blocks.rs` lines 626–689); the fuel
bounds the iteration count (the index strictly increases, so
`lines.length + 1` steps always suffice). -/
def pageGo (resolve : Block → Block) (lines : List Str) :
    Nat → Nat → List Str → List Block → List Block
  | 0, _, md, children => children ++ flushMdLines md
  | fuel + 1, i, md, children =>
    match lines[i]? with
    | none => children ++ flushMdLines md
    | some line =>
      let trimmed := trimStr line
      match openingDirective trimmed with
      | some (depth, name, attrsStr) =>
        match scanContainerClose lines (i + 1) depth with
        | some (contentStr, endIdx) =>
          let attrs := (parseAttrs attrsStr).toOption.getD []
          let block := resolve (.unknown name attrs contentStr dummySpan)
          pageGo resolve lines fuel (endIdx + 1) []
            (children ++ flushMdLines md ++ [block])
        | none =>
          match tryParseLeafDirective resolve line with
          | some block =>
            pageGo resolve lines fuel (i + 1) [] (children ++ flushMdLines md ++ [block])
          | none =>
            if (closingDirectiveDepth trimmed).isSome then
              pageGo resolve lines fuel (i + 1) md children
            else pageGo resolve lines fuel (i + 1) (md ++ [line]) children
      | none =>
        if (closingDirectiveDepth trimmed).isSome then
          pageGo resolve lines fuel (i + 1) md children
        else pageGo resolve lines fuel (i + 1) (md ++ [line]) children

/-- `parse_page_children` from `blocks.rs`. -/
def parsePageChildren (resolve : Block → Block) (content : Str) : List Block :=
  let lines := rustLines content
  pageGo resolve lines (lines.length + 1) 0 [] []

/-- `parse_page`. -/
def parsePage (resolve : Block → Block) (attrs : Attrs) (content : Str) (sp : Span) :
    Block :=
  .page ((attrString attrs "route").getD []) (attrString attrs "layout")
    (attrString attrs "title") (attrBool attrs "sidebar") content
    (parsePageChildren resolve content) sp

-- ------------------------------------------------------------------
-- `resolve_block` (`blocks.rs` lines 13–46) and `parse` (`parse.rs`)
-- ------------------------------------------------------------------

/-- `resolve_block`, with fuel bounding the `page`-in-`page` recursion
depth (each nested `page` has strictly shorter content, so the fuel used
by `resolveTop` never runs out on reachable inputs). -/
def resolveBlockF : Nat → Block → Block
  | 0, b => b
  | fuel + 1, b =>
    match b with
    | .unknown name attrs content sp =>
      if name = chars "callout" then parseCallout attrs content sp
      else if name = chars "data" then parseData attrs content sp
      else if name = chars "code" then parseCode attrs content sp
      else if name = chars "tasks" then parseTasks content sp
      else if name = chars "decision" then parseDecision attrs content sp
      else if name = chars "metric" then parseMetric attrs sp
      else if name = chars "summary" then parseSummary content sp
      else if name = chars "figure" then parseFigure attrs sp
      else if name = chars "tabs" then parseTabs content sp
      else if name = chars "columns" then parseColumns content sp
      else if name = chars "quote" then parseQuote attrs content sp
      else if name = chars "cta" then parseCta attrs sp
      else if name = chars "hero-image" then parseHeroImage attrs sp
      else if name = chars "testimonial" then parseTestimonial attrs content sp
      else if name = chars "style" then parseStyle content sp
      else if name = chars "faq" then parseFaq content sp
      else if name = chars "pricing-table" then parsePricingTable content sp
      else if name = chars "site" then parseSite attrs content sp
      else if name = chars "page" then parsePage (resolveBlockF fuel) attrs content sp
      else b
    | other => other

/-- Pass 2 of `parse`: resolve only the `Unknown` blocks. -/
def resolveTop (b : Block) : Block :=
  match b with
  | .unknown _ _ content _ => resolveBlockF (content.length + 1) b
  | other => other

/-- `parse` from `parse.rs`.  `yamlP` models the external `serde_yaml`
front-matter parser; `none` marks a would-be panic. -/
def parse (yamlP : Str → Except Str FrontMatter) (input : Str) : Option ParseResult :=
  let nsrc := normalizeCRLF input
  let lines := splitLines nsrc
  let (fm, bodyStart, d0) := extractFrontMatter yamlP lines nsrc
  (scanBlocks nsrc lines bodyStart d0).map fun (blocks, diags) =>
    ⟨⟨fm, blocks.map resolveTop, nsrc⟩, diags⟩

/-- A concrete stand-in for the external YAML parser (always fails); used
only on inputs without front matter, where it is never consulted. -/
def yamlNone : Str → Except Str FrontMatter := fun _ => .error []

-- ------------------------------------------------------------------
-- Validator (`validate.rs`)
-- ------------------------------------------------------------------

/-- A validation diagnostic with a span. -/
def vDiag (sev : Severity) (msg : String) (sp : Span) (code : String) : Diagnostic :=
  ⟨sev, chars msg, some sp, some (chars code)⟩

/-- `validate_front_matter` from `validate.rs`. -/
def validateFrontMatter (doc : SurfDoc) : List Diagnostic :=
  match doc.frontMatter with
  | none =>
    [⟨.warning, chars "Missing front matter: no title specified", none, some (chars "V001")⟩,
     ⟨.warning, chars "Missing front matter: no doc_type specified", none,
       some (chars "V002")⟩]
  | some fm =>
    (if fm.title = none then
      [⟨.warning, chars "Missing front matter field: title", none, some (chars "V001")⟩]
     else []) ++
    (if fm.docType = none then
      [⟨.warning, chars "Missing front matter field: doc_type", none, some (chars "V002")⟩]
     else [])

/-- `validate_block` from `validate.rs`. -/
def validateBlock (b : Block) : List Diagnostic :=
  match b with
  | .metric label value _ _ sp =>
    (if label = [] then
      [vDiag .error "Metric block is missing required attribute: label" sp "V010"] else []) ++
    (if value = [] then
      [vDiag .error "Metric block is missing required attribute: value" sp "V011"] else [])
  | .figure src _ _ _ sp =>
    if src = [] then
      [vDiag .error "Figure block is missing required attribute: src" sp "V020"] else []
  | .data _ _ _ headers rows _ sp =>
    if headers ≠ [] ∧ rows = [] then
      [vDiag .warning "Data block has headers but zero data rows" sp "V030"] else []
  | .callout _ _ content sp =>
    if trimStr content = [] then
      [vDiag .warning "Callout block has empty content" sp "V040"] else []
  | .code _ _ _ content sp =>
    if trimStr content = [] then
      [vDiag .warning "Code block has empty content" sp "V050"] else []
  | .decision _ _ _ content sp =>
    if trimStr content = [] then
      [vDiag .warning "Decision block has empty body" sp "V060"] else []
  | .tabs tabs sp =>
    if tabs = [] then [vDiag .warning "Tabs block has no tab panels" sp "V070"] else []
  | .quote content _ _ sp =>
    if trimStr content = [] then
      [vDiag .warning "Quote block has empty content" sp "V080"] else []
  | .cta label href _ _ sp =>
    (if label = [] then
      [vDiag .error "Cta block is missing required attribute: label" sp "V090"] else []) ++
    (if href = [] then
      [vDiag .error "Cta block is missing required attribute: href" sp "V091"] else [])
  | .heroImage src _ sp =>
    if src = [] then
      [vDiag .error "HeroImage block is missing required attribute: src" sp "V100"] else []
  | .testimonial content _ _ _ sp =>
    if trimStr content = [] then
      [vDiag .warning "Testimonial block has empty content" sp "V110"] else []
  | .faq items sp =>
    if items = [] then
      [vDiag .warning "Faq block has no question/answer items" sp "V120"] else []
  | .pricingTable headers rows sp =>
    (if headers = [] then
      [vDiag .warning "PricingTable block has no headers (tier names)" sp "V130"] else []) ++
    (if headers ≠ [] ∧ rows = [] then
      [vDiag .warning "PricingTable block has headers but zero feature rows" sp "V131"]
     else [])
  | .page route _ _ _ _ _ sp =>
    if route = [] then
      [vDiag .error "Page block is missing required attribute: route" sp "V140"] else []
  | _ => []

/-- `validate` from `validate.rs`. -/
def validate (doc : SurfDoc) : List Diagnostic :=
  validateFrontMatter doc ++ (doc.blocks.map validateBlock).flatten

-- ------------------------------------------------------------------
-- Markdown renderer (`render_md.rs`)
-- ------------------------------------------------------------------

/-- `callout_type_label`. -/
def calloutTypeLabel : CalloutType → Str
  | .info => chars "Info"
  | .warning => chars "Warning"
  | .danger => chars "Danger"
  | .tip => chars "Tip"
  | .note => chars "Note"
  | .success => chars "Success"

/-- `decision_status_label`. -/
def decisionStatusLabel : DecisionStatus → Str
  | .proposed => chars "proposed"
  | .accepted => chars "accepted"
  | .rejected => chars "rejected"
  | .superseded => chars "superseded"

/-- `render_block` from `render_md.rs`: degrade one block to CommonMark. -/
def renderBlockMd (b : Block) : Str :=
  match b with
  | .markdown content _ => content
  | .callout calloutType title content _ =>
    let typeLabel := calloutTypeLabel calloutType
    let pre :=
      match title with
      | some t => chars "**" ++ typeLabel ++ chars "**: " ++ t
      | none => chars "**" ++ typeLabel ++ chars "**"
    joinSep (chars "\n")
      ((chars "> " ++ pre) :: (rustLines content).map (fun l => chars "> " ++ l))
  | .data _ _ _ headers rows _ _ =>
    if headers = [] then []
    else
      joinSep (chars "\n")
        ([chars "| " ++ joinSep (chars " | ") headers ++ chars " |",
          chars "| " ++ joinSep (chars " | ") (headers.map (fun _ => chars "---"))
            ++ chars " |"] ++
          rows.map (fun row => chars "| " ++ joinSep (chars " | ") row ++ chars " |"))
  | .code lang _ _ content _ =>
    chars "```" ++ lang.getD [] ++ chars "\n" ++ content ++ chars "\n```"
  | .tasks items _ =>
    joinSep (chars "\n")
      (items.map fun item =>
        let ck : Str := if item.done then ['x'] else [' ']
        match item.assignee with
        | some a => chars "- [" ++ ck ++ chars "] " ++ item.text ++ chars " @" ++ a
        | none => chars "- [" ++ ck ++ chars "] " ++ item.text)
  | .decision status date _ content _ =>
    let datePart :=
      match date with
      | some d => chars " (" ++ d ++ chars ")"
      | none => []
    joinSep (chars "\n")
      ((chars "> **Decision** (" ++ decisionStatusLabel status ++ chars ")" ++ datePart) ::
        (rustLines content).map (fun l => chars "> " ++ l))
  | .metric label value trend unit _ =>
    let trendArrow : Str :=
      match trend with
      | some .up => chars " ↑"
      | some .down => chars " ↓"
      | some .flat => chars " →"
      | none => []
    let unitPart :=
      match unit with
      | some u => chars " " ++ u
      | none => []
    chars "**" ++ label ++ chars "**: " ++ value ++ unitPart ++ trendArrow
  | .summary content _ =>
    joinSep (chars "\n")
      ((rustLines content).map (fun l => chars "> *" ++ l ++ chars "*"))
  | .figure src caption alt _ _ =>
    let img := chars "![" ++ alt.getD [] ++ chars "](" ++ src ++ chars ")"
    match caption with
    | some c => img ++ chars "\n*" ++ c ++ chars "*"
    | none => img
  | .tabs tabs _ =>
    joinSep (chars "\n\n")
      (tabs.map fun tab => chars "### " ++ tab.label ++ chars "\n\n" ++ tab.content)
  | .columns columns _ =>
    joinSep (chars "\n\n---\n\n") (columns.map ColumnContent.content)
  | .quote content attribution _ _ =>
    let lines := (rustLines content).map (fun l => chars "> " ++ l)
    let lines :=
      match attribution with
      | some attr => lines ++ [chars ">\n> — " ++ attr]
      | none => lines
    joinSep (chars "\n") lines
  | .cta label href _ _ _ => chars "[" ++ label ++ chars "](" ++ href ++ chars ")"
  | .heroImage src alt _ =>
    chars "![" ++ alt.getD (chars "Hero image") ++ chars "](" ++ src ++ chars ")"
  | .testimonial content author role company _ =>
    let lines := (rustLines content).map (fun l => chars "> " ++ l)
    let details := [author, role, company].filterMap id
    let lines :=
      if details ≠ [] then lines ++ [chars ">\n> — " ++ joinSep (chars ", ") details]
      else lines
    joinSep (chars "\n") lines
  | .style _ _ => []
  | .faq items _ =>
    joinSep (chars "\n\n")
      (items.map fun item => chars "### " ++ item.question ++ chars "\n\n" ++ item.answer)
  | .pricingTable headers rows _ =>
    if headers = [] then []
    else
      joinSep (chars "\n")
        ([chars "| " ++ joinSep (chars " | ") headers ++ chars " |",
          chars "| " ++ joinSep (chars " | ") (headers.map (fun _ => chars "---"))
            ++ chars " |"] ++
          rows.map (fun row => chars "| " ++ joinSep (chars " | ") row ++ chars " |"))
  | .site domain properties _ =>
    let lines := [chars "**Site Configuration**"]
    let lines :=
      match domain with
      | some d => lines ++ [chars "- domain: " ++ d]
      | none => lines
    let lines := lines ++
      properties.map (fun p => chars "- " ++ p.key ++ chars ": " ++ p.value)
    joinSep (chars "\n") lines
  | .page _ _ title _ content _ _ =>
    match title with
    | some t => chars "## " ++ t ++ chars "\n\n" ++ content
    | none => content
  | .nav items _ _ =>
    joinSep (chars "\n")
      (items.map fun item => chars "- [" ++ item.label ++ chars "](" ++ item.href ++ chars ")")
  | .unknown name _ content _ =>
    joinSep (chars "\n")
      ([chars "<!-- ::" ++ name ++ chars " -->"] ++
        (if content ≠ [] then [content] else []) ++ [chars "<!-- :: -->"])

/-- `to_markdown` from `render_md.rs`. -/
def toMarkdown (doc : SurfDoc) : Str :=
  joinSep (chars "\n\n") (doc.blocks.map renderBlockMd)

-- ------------------------------------------------------------------
-- Predicates used by the verified properties
-- ------------------------------------------------------------------

/-- The span invariant claimed by the specification:
`0 ≤ start_offset ≤ end_offset ≤ len` and `1 ≤ start_line ≤ end_line`. -/
def spanValid (len : Nat) (sp : Span) : Prop :=
  1 ≤ sp.startLine ∧ sp.startLine ≤ sp.endLine ∧
    sp.startOffset ≤ sp.endOffset ∧ sp.endOffset ≤ len

instance (len : Nat) (sp : Span) : Decidable (spanValid len sp) := by
  unfold spanValid; infer_instance

/-- Every (transitive) child of a `Page` block carries the placeholder span
`⟨0,0,0,0⟩`. -/
def childSpansDummy : Block → Bool
  | .page _ _ _ _ _ children _ =>
    children.attach.all fun c => c.1.span == dummySpan && childSpansDummy c.1
  | _ => true
decreasing_by
  have h := List.sizeOf_lt_of_mem c.2
  simp only [Block.page.sizeOf_spec] at *
  omega

/-- Substring occurrence on embedded strings. -/
def occursList (pat : Str) : Str → Bool
  | [] => pat.isPrefixOf []
  | c :: t => pat.isPrefixOf (c :: t) || occursList pat t

/-- The known block names listed by the specification's Markdown-leakage
property. -/
def knownBlockNames : List Str :=
  [chars "callout", chars "data", chars "code", chars "tasks", chars "decision",
   chars "metric", chars "summary", chars "figure", chars "tabs", chars "columns",
   chars "quote", chars "cta", chars "hero-image", chars "testimonial", chars "style",
   chars "faq", chars "pricing-table", chars "site", chars "page"]

/-- Does the string contain `::` immediately followed by a known block name? -/
def containsKnownDirective (s : Str) : Bool :=
  knownBlockNames.any fun k => occursList (chars "::" ++ k) s

/-- Does the string contain `::` immediately followed by a letter?  (Every
known block name starts with a letter, so this dominates
`containsKnownDirective`.) -/
def hasDDL : Str → Bool
  | a :: b :: c :: rest => (a == ':' && b == ':' && c.isAlpha) || hasDDL (b :: c :: rest)
  | _ => false

/-- A block is `Markdown-render safe` when it is not an `Unknown`
passthrough and none of the text fields the Markdown renderer reproduces
contains `::` followed by a letter. -/
def mdSafeB : Block → Bool
  | .unknown _ _ _ _ => false
  | .markdown content _ => !hasDDL content
  | .callout _ title content _ => !hasDDL (title.getD []) && !hasDDL content
  | .data _ _ _ headers rows _ _ =>
    headers.all (fun h => !hasDDL h) && rows.all (fun r => r.all (fun c => !hasDDL c))
  | .code lang _ _ content _ => !hasDDL (lang.getD []) && !hasDDL content
  | .tasks items _ => items.all (fun i => !hasDDL i.text && !hasDDL (i.assignee.getD []))
  | .decision _ date _ content _ => !hasDDL (date.getD []) && !hasDDL content
  | .metric label value _ unit _ =>
    !hasDDL label && !hasDDL value && !hasDDL (unit.getD [])
  | .summary content _ => !hasDDL content
  | .figure src caption alt _ _ =>
    !hasDDL src && !hasDDL (caption.getD []) && !hasDDL (alt.getD [])
  | .tabs tabs _ => tabs.all (fun t => !hasDDL t.label && !hasDDL t.content)
  | .columns cols _ => cols.all (fun c => !hasDDL c.content)
  | .quote content attribution _ _ => !hasDDL content && !hasDDL (attribution.getD [])
  | .cta label href _ _ _ => !hasDDL label && !hasDDL href
  | .nav items _ _ => items.all (fun i => !hasDDL i.label && !hasDDL i.href)
  | .heroImage src alt _ => !hasDDL src && !hasDDL (alt.getD [])
  | .testimonial content author role company _ =>
    !hasDDL content && !hasDDL (author.getD []) && !hasDDL (role.getD []) &&
      !hasDDL (company.getD [])
  | .style _ _ => true
  | .faq items _ => items.all (fun i => !hasDDL i.question && !hasDDL i.answer)
  | .pricingTable headers rows _ =>
    headers.all (fun h => !hasDDL h) && rows.all (fun r => r.all (fun c => !hasDDL c))
  | .site domain props _ =>
    !hasDDL (domain.getD []) && props.all (fun p => !hasDDL p.key && !hasDDL p.value)
  | .page _ _ title _ content _ _ => !hasDDL (title.getD []) && !hasDDL content

deriving instance DecidableEq for Except

/-- The scanner itself only ever emits `unknown` and `markdown` blocks. -/
def scanEmitted : Block → Bool
  | .unknown _ _ _ _ => true
  | .markdown _ _ => true
  | _ => false

/-- Whether a block is a `page` (the only variant holding child blocks). -/
def isPage : Block → Bool
  | .page _ _ _ _ _ _ _ => true
  | _ => false

/-- The first character of `s` cannot complete a `::letter` window that
straddles a concatenation boundary: it is not a letter, and if it is a
colon the next character is not a letter. -/
def startOK : Str → Bool
  | [] => true
  | [c] => !c.isAlpha
  | c :: d :: _ => !c.isAlpha && (!(c == ':') || !d.isAlpha)

/-- The last character of `s` is not a colon (or `s` is empty), so no
`::letter` window can begin inside `s` and end after it. -/
def endOK : Str → Bool
  | [] => true
  | [c] => !(c == ':')
  | _ :: c :: t => endOK (c :: t)

/-- The first character of `s` is neither a letter nor a colon. -/
def strongStart : Str → Bool
  | [] => false
  | c :: _ => !c.isAlpha && !(c == ':')

/-- Invariant for an entry of the scanner stack while the scanner stands
before line `idx`. -/
structure StackInv (src : Str) (idx : Nat) (ob : OpenBlock) : Prop where
  hone : 1 ≤ ob.startLine
  hle : ob.startLine ≤ idx
  hso : ob.startOffset ≤ byteStartOfLine src idx
  hsoLen : ob.startOffset ≤ src.length
  hcs : ob.contentStartOffset ≤ byteStartOfLine src idx
  hcsLen : ob.contentStartOffset ≤ src.length

/-- Invariant of the whole scanner state before line `idx`. -/
structure ScanInv (src : Str) (idx : Nat) (st : ScanState) : Prop where
  hidx : idx ≤ (splitLines src).length
  hblocks : ∀ b ∈ st.blocks, spanValid src.length b.span ∧ scanEmitted b = true
  hstack : ∀ ob ∈ st.stack, StackInv src idx ob
  hmd : ∀ j, st.mdLine = some j → j < idx ∧ j < (splitLines src).length ∧
    st.mdOff = some (byteStartOfLine src j)
  hmd0 : st.mdLine = none → st.mdOff = none


-- ------------------------------------------------------------------
-- Theorems
-- ------------------------------------------------------------------

theorem splitLines_ne_nil (s : Str) : splitLines s ≠ [] := by
  induction s with
  | nil => simp [splitLines]
  | cons c rest ih =>
    simp only [splitLines]
    split
    · simp
    · split
      · simp
      · simp

theorem splitLines_totLen (s : Str) :
    ((splitLines s).map (fun l => l.length + 1)).sum = s.length + 1 := by
  induction s with
  | nil => simp [splitLines]
  | cons c rest ih =>
    simp only [splitLines]
    split
    · simp only [List.map_cons, List.sum_cons, List.length_cons, List.length_nil, ih]
      omega
    · rcases h : splitLines rest with _ | ⟨l, ls⟩
      · exact absurd h (splitLines_ne_nil rest)
      · rw [h] at ih
        simp only [List.map_cons, List.sum_cons, List.length_cons] at *
        omega

theorem lineStartCore_isSome (ls : List Str) (idx : Nat) :
    (lineStartCore ls idx).isSome ↔ idx < ls.length := by
  induction ls generalizing idx with
  | nil => simp [lineStartCore]
  | cons l rest ih =>
    cases idx with
    | zero => simp [lineStartCore]
    | succ n =>
      have ih' := ih n
      simp only [lineStartCore, List.length_cons]
      rcases h : lineStartCore rest n with _ | o <;> rw [h] at ih' <;>
        simp_all

theorem lineEndCore_isSome (ls : List Str) (idx : Nat) :
    (lineEndCore ls idx).isSome ↔ idx < ls.length := by
  induction ls generalizing idx with
  | nil => simp [lineEndCore]
  | cons l rest ih =>
    cases idx with
    | zero => simp [lineEndCore]
    | succ n =>
      have ih' := ih n
      simp only [lineEndCore, List.length_cons]
      rcases h : lineEndCore rest n with _ | o <;> rw [h] at ih' <;>
        simp_all

theorem lineEndCore_eq_start_add (ls : List Str) (idx : Nat) (o : Nat)
    (h : lineStartCore ls idx = some o) :
    ∃ l, ls[idx]? = some l ∧ lineEndCore ls idx = some (o + l.length) := by
  induction ls generalizing idx o with
  | nil => simp [lineStartCore] at h
  | cons x rest ih =>
    cases idx with
    | zero =>
      simp only [lineStartCore, Option.some.injEq] at h
      subst h
      exact ⟨x, by simp, by simp [lineEndCore]⟩
    | succ n =>
      rcases hrec : lineStartCore rest n with _ | o'
      · simp only [lineStartCore, hrec, Option.map_none'] at h
        exact Option.noConfusion h
      · simp only [lineStartCore, hrec, Option.map_some', Option.some.injEq] at h
        rcases ih n o' hrec with ⟨l, hl, he⟩
        refine ⟨l, by simpa using hl, ?_⟩
        simp only [lineEndCore, he, Option.map_some', Option.some.injEq]
        omega

theorem lineEndCore_le_sum (ls : List Str) (idx : Nat) (o : Nat)
    (h : lineEndCore ls idx = some o) :
    o + 1 ≤ (ls.map (fun l => l.length + 1)).sum := by
  induction ls generalizing idx o with
  | nil => simp [lineEndCore] at h
  | cons x rest ih =>
    cases idx with
    | zero =>
      simp only [lineEndCore, Option.some.injEq] at h
      subst h
      simp only [List.map_cons, List.sum_cons]
      omega
    | succ n =>
      rcases hrec : lineEndCore rest n with _ | o'
      · simp only [lineEndCore, hrec, Option.map_none'] at h
        exact Option.noConfusion h
      · simp only [lineEndCore, hrec, Option.map_some', Option.some.injEq] at h
        have := ih n o' hrec
        simp only [List.map_cons, List.sum_cons]
        omega

theorem lineStartCore_succ_ge (ls : List Str) (idx : Nat) (a b : Nat)
    (ha : lineStartCore ls idx = some a) (hb : lineStartCore ls (idx + 1) = some b) :
    a ≤ b := by
  induction ls generalizing idx a b with
  | nil => simp [lineStartCore] at ha
  | cons x rest ih =>
    cases idx with
    | zero =>
      simp only [lineStartCore, Option.some.injEq] at ha
      rcases hrec : lineStartCore rest 0 with _ | o'
      · simp only [lineStartCore, hrec, Option.map_none'] at hb
        exact Option.noConfusion hb
      · simp only [lineStartCore, hrec, Option.map_some', Option.some.injEq] at hb
        omega
    | succ n =>
      rcases hrec : lineStartCore rest n with _ | a'
      · simp only [lineStartCore, hrec, Option.map_none'] at ha
        exact Option.noConfusion ha
      · rcases hrec2 : lineStartCore rest (n + 1) with _ | b'
        · simp only [lineStartCore, hrec2, Option.map_none'] at hb
          exact Option.noConfusion hb
        · simp only [lineStartCore, hrec, hrec2, Option.map_some',
            Option.some.injEq] at ha hb
          have := ih n a' b' hrec hrec2
          omega

theorem byteEndOfLine_le_len (src : Str) (idx : Nat) : byteEndOfLine src idx ≤ src.length := by
  unfold byteEndOfLine
  rcases h : lineEndCore (splitLines src) idx with _ | o
  · simp
  · have := lineEndCore_le_sum (splitLines src) idx o h
    rw [splitLines_totLen] at this
    simpa using by omega

theorem byteStartOfLine_le_end (src : Str) (idx : Nat) :
    byteStartOfLine src idx ≤ byteEndOfLine src idx := by
  unfold byteStartOfLine byteEndOfLine
  rcases h : lineStartCore (splitLines src) idx with _ | o
  · rcases he : lineEndCore (splitLines src) idx with _ | o'
    · simp
    · have h1 := (lineEndCore_isSome (splitLines src) idx).mp (by simp [he])
      have h2 := (lineStartCore_isSome (splitLines src) idx).mpr h1
      rw [h] at h2
      simp at h2
  · rcases lineEndCore_eq_start_add (splitLines src) idx o h with ⟨l, _, he⟩
    simp [he]

theorem byteStartOfLine_le_len (src : Str) (idx : Nat) :
    byteStartOfLine src idx ≤ src.length :=
  le_trans (byteStartOfLine_le_end src idx) (byteEndOfLine_le_len src idx)

theorem byteStartOfLine_succ_le (src : Str) (idx : Nat) :
    byteStartOfLine src idx ≤ byteStartOfLine src (idx + 1) := by
  have hlen : byteStartOfLine src idx ≤ src.length := byteStartOfLine_le_len src idx
  unfold byteStartOfLine at *
  rcases h2 : lineStartCore (splitLines src) (idx + 1) with _ | b
  · simpa using hlen
  · have hsome : idx < (splitLines src).length := by
      have h3 := (lineStartCore_isSome (splitLines src) (idx + 1)).mp (by simp [h2])
      omega
    rcases Option.isSome_iff_exists.mp ((lineStartCore_isSome (splitLines src) idx).mpr hsome)
      with ⟨a, h1⟩
    rw [h1]
    simpa using lineStartCore_succ_ge (splitLines src) idx a b h1 h2

theorem byteStartOfLine_mono (src : Str) {i j : Nat} (h : i ≤ j) :
    byteStartOfLine src i ≤ byteStartOfLine src j := by
  induction j with
  | zero =>
    have h0 : i = 0 := by omega
    simp [h0]
  | succ n ih =>
    rcases Nat.lt_or_ge i (n + 1) with hlt | hge
    · exact le_trans (ih (by omega)) (byteStartOfLine_succ_le src n)
    · have h0 : i = n + 1 := by omega
      simp [h0]

theorem byteStart_le_end_of_le (src : Str) {i j : Nat} (h : i ≤ j) :
    byteStartOfLine src i ≤ byteEndOfLine src j :=
  le_trans (byteStartOfLine_mono src h) (byteStartOfLine_le_end src j)

theorem byteEndOfLine_eq (src : Str) (idx : Nat) (line : Str)
    (h : (splitLines src)[idx]? = some line) :
    byteEndOfLine src idx = byteStartOfLine src idx + line.length := by
  have hlt : idx < (splitLines src).length := by
    rcases Nat.lt_or_ge idx (splitLines src).length with hlt | hge
    · exact hlt
    · rw [List.getElem?_eq_none (by omega)] at h
      exact Option.noConfusion h
  rcases Option.isSome_iff_exists.mp ((lineStartCore_isSome (splitLines src) idx).mpr hlt)
    with ⟨a, h1⟩
  rcases lineEndCore_eq_start_add (splitLines src) idx a h1 with ⟨l, hl, he⟩
  rw [h] at hl
  unfold byteEndOfLine byteStartOfLine
  rw [he, h1]
  simp only [Option.getD_some]
  have hx : line = l := by injection hl
  subst hx
  omega

theorem lineStartCore_succ_eq_ite (ls : List Str) (idx : Nat) (a : Nat) (l : Str)
    (h1 : lineStartCore ls idx = some a) (hl : ls[idx]? = some l) :
    lineStartCore ls (idx + 1) =
      if idx + 1 < ls.length then some (a + l.length + 1) else none := by
  induction ls generalizing idx a with
  | nil => simp [lineStartCore] at h1
  | cons x rest ih =>
    cases idx with
    | zero =>
      simp only [lineStartCore, Option.some.injEq] at h1
      subst h1
      have hx : l = x := by simpa using hl.symm
      subst hx
      rcases hr : rest with _ | ⟨y, rest'⟩
      · simp [lineStartCore]
      · simp [lineStartCore]
    | succ n =>
      rcases hrec : lineStartCore rest n with _ | a'
      · simp only [lineStartCore, hrec, Option.map_none'] at h1
        exact Option.noConfusion h1
      · simp only [lineStartCore, hrec, Option.map_some', Option.some.injEq] at h1
        have hl' : rest[n]? = some l := by simpa using hl
        have hiter := ih n a' hrec hl'
        simp only [lineStartCore, hiter]
        by_cases hc : n + 1 < rest.length
        · have hc2 : n + 1 + 1 < (x :: rest).length := by
            simp only [List.length_cons]
            omega
          rw [if_pos hc, if_pos hc2, Option.map_some']
          congr 1
          omega
        · have hc2 : ¬ (n + 1 + 1 < (x :: rest).length) := by
            simp only [List.length_cons]
            omega
          rw [if_neg hc, if_neg hc2, Option.map_none']

theorem lineEndCore_last (ls : List Str) (h : ls ≠ []) :
    lineEndCore ls (ls.length - 1) =
      some ((ls.map (fun l => l.length + 1)).sum - 1) := by
  induction ls with
  | nil => simp at h
  | cons x rest ih =>
    rcases hr : rest with _ | ⟨y, rest'⟩
    · simp [lineEndCore]
    · rw [← hr]
      have hne : rest ≠ [] := by simp [hr]
      have := ih hne
      have hlen : (x :: rest).length - 1 = (rest.length - 1) + 1 := by
        rw [hr]
        simp
      rw [hlen]
      simp only [lineEndCore, this, Option.map_some', Option.some.injEq,
        List.map_cons, List.sum_cons]
      have hpos : 1 ≤ (rest.map (fun l => l.length + 1)).sum := by
        rw [hr]
        simp only [List.map_cons, List.sum_cons]
        omega
      omega

theorem byteStartOfLine_succ_eq (src : Str) (idx : Nat) (line : Str)
    (h : (splitLines src)[idx]? = some line) :
    byteStartOfLine src (idx + 1) =
      min (byteStartOfLine src idx + line.length + 1) src.length := by
  have hlt : idx < (splitLines src).length := by
    rcases Nat.lt_or_ge idx (splitLines src).length with hlt | hge
    · exact hlt
    · rw [List.getElem?_eq_none (by omega)] at h
      exact Option.noConfusion h
  rcases Option.isSome_iff_exists.mp ((lineStartCore_isSome (splitLines src) idx).mpr hlt)
    with ⟨a, h1⟩
  have hstep := lineStartCore_succ_eq_ite (splitLines src) idx a line h1 h
  have ha : byteStartOfLine src idx = a := by
    unfold byteStartOfLine
    rw [h1]
    rfl
  by_cases hc : idx + 1 < (splitLines src).length
  · rw [if_pos hc] at hstep
    have hble : a + line.length + 1 ≤ src.length := by
      have := byteStartOfLine_le_len src (idx + 1)
      unfold byteStartOfLine at this
      rw [hstep] at this
      simpa using this
    unfold byteStartOfLine
    rw [hstep, h1]
    simp only [Option.getD_some]
    omega
  · rw [if_neg hc] at hstep
    -- idx is the last line: its end is exactly the source length
    have hidx : idx = (splitLines src).length - 1 := by omega
    have hlast := lineEndCore_last (splitLines src) (splitLines_ne_nil src)
    rw [splitLines_totLen] at hlast
    rw [← hidx] at hlast
    have hend := byteEndOfLine_eq src idx line h
    have hendv : byteEndOfLine src idx = src.length := by
      unfold byteEndOfLine
      rw [hlast]
      simp
    unfold byteStartOfLine
    rw [hstep, h1]
    simp only [Option.getD_none, Option.getD_some]
    omega

theorem StackInv.mono {src : Str} {idx idx' : Nat} {ob : OpenBlock}
    (h : StackInv src idx ob) (hle : idx ≤ idx') : StackInv src idx' ob :=
  ⟨h.hone, le_trans h.hle hle, le_trans h.hso (byteStartOfLine_mono src hle),
    h.hsoLen, le_trans h.hcs (byteStartOfLine_mono src hle), h.hcsLen⟩

theorem trimBackEmpty_ge (lines : List Str) (startIdx : Nat) :
    ∀ e, startIdx ≤ e → startIdx ≤ trimBackEmpty lines startIdx e := by
  intro e
  induction e with
  | zero => intro h; simpa [trimBackEmpty] using h
  | succ n ih =>
    intro h
    simp only [trimBackEmpty]
    split
    · rename_i hc
      exact ih (by omega)
    · exact h

theorem trimBackEmpty_le (lines : List Str) (startIdx : Nat) :
    ∀ e, trimBackEmpty lines startIdx e ≤ e := by
  intro e
  induction e with
  | zero => simp [trimBackEmpty]
  | succ n ih =>
    simp only [trimBackEmpty]
    split
    · exact le_trans ih (by omega)
    · exact le_refl _

theorem findClose_spec (stack : List OpenBlock) (d : Nat) (orphans : List OpenBlock)
    (target : OpenBlock) (below : List OpenBlock)
    (h : findClose stack d = some (orphans, target, below)) :
    stack = orphans ++ target :: below := by
  induction stack generalizing orphans with
  | nil => simp [findClose] at h
  | cons ob rest ih =>
    simp only [findClose] at h
    split at h
    · simp only [Option.some.injEq] at h
      rcases h with ⟨rfl, rfl, rfl⟩
      rfl
    · rcases hrec : findClose rest d with _ | ⟨o2, t2, b2⟩
      · rw [hrec] at h
        simp at h
      · rw [hrec] at h
        simp only [Option.map_some', Option.some.injEq] at h
        rcases h with ⟨rfl, rfl, rfl⟩
        rw [ih o2 hrec]
        rfl

theorem flushMarkdown_ok (src : Str) (cur : Nat) (mdLine mdOff : Option Nat)
    (blocks : List Block)
    (hmd : ∀ j, mdLine = some j → j < cur ∧ j < (splitLines src).length ∧
      mdOff = some (byteStartOfLine src j))
    (hmd0 : mdLine = none → mdOff = none)
    (hb : ∀ b ∈ blocks, spanValid src.length b.span ∧ scanEmitted b = true) :
    ∃ blocks', flushMarkdown src cur mdLine mdOff blocks = some (blocks', none, none) ∧
      ∀ b ∈ blocks', spanValid src.length b.span ∧ scanEmitted b = true := by
  rcases mdLine with _ | j
  · rw [hmd0 rfl]
    exact ⟨blocks, rfl, hb⟩
  · rcases hmd j rfl with ⟨hjc, hjN, hoff⟩
    rw [hoff]
    simp only [flushMarkdown]
    set endIdx := trimBackEmpty (splitLines src) j (cur - 1) with hEndIdx
    have hje : j ≤ endIdx := trimBackEmpty_ge _ _ _ (by omega)
    have hs1 : byteStartOfLine src j ≤ byteEndOfLine src endIdx :=
      byteStart_le_end_of_le src hje
    have hs2 : byteEndOfLine src endIdx ≤ src.length := byteEndOfLine_le_len src endIdx
    rw [sliceChk, if_pos ⟨hs1, hs2⟩]
    simp only [Option.map_some']
    split
    · refine ⟨_, rfl, ?_⟩
      intro b hbmem
      rcases List.mem_append.mp hbmem with hmem | hmem
      · exact hb b hmem
      · simp only [List.mem_cons, List.not_mem_nil, or_false] at hmem
        subst hmem
        exact ⟨⟨by simp [Block.span], by simp [Block.span]; omega,
          by simp [Block.span, spanValid]; exact ⟨hs1, hs2⟩⟩, rfl⟩
    · exact ⟨blocks, rfl, hb⟩

theorem scanStep_inv (src : Str) (idx : Nat) (line : Str) (st : ScanState)
    (hline : (splitLines src)[idx]? = some line)
    (hInv : ScanInv src idx st) :
    ∃ st', scanStep src idx line st = some st' ∧ ScanInv src (idx + 1) st' := by
  have hidxN : idx < (splitLines src).length := by
    rcases Nat.lt_or_ge idx (splitLines src).length with hlt | hge
    · exact hlt
    · rw [List.getElem?_eq_none (by omega)] at hline
      exact Option.noConfusion hline
  have hEndEq : byteEndOfLine src idx = byteStartOfLine src idx + line.length :=
    byteEndOfLine_eq src idx line hline
  have hSuccEq : byteStartOfLine src (idx + 1) =
      min (byteStartOfLine src idx + line.length + 1) src.length :=
    byteStartOfLine_succ_eq src idx line hline
  have hStartLen : byteStartOfLine src idx ≤ src.length := byteStartOfLine_le_len src idx
  have hEndLen : byteEndOfLine src idx ≤ src.length := byteEndOfLine_le_len src idx
  simp only [scanStep]
  rcases hcl : (closingDirectiveDepth (trimStr line)).bind (findClose st.stack) with
    _ | ⟨orphans, target, below⟩
  · -- no matching close; try an opening directive
    dsimp only
    rcases hop : openingDirective (trimStr line) with _ | ⟨depth, name, attrsStr⟩
    · -- plain line
      dsimp only
      by_cases hreg : st.stack = [] ∧ st.mdLine = none
      · rw [if_pos hreg]
        refine ⟨_, rfl, ?_⟩
        refine ⟨by omega, hInv.hblocks, ?_, ?_, ?_⟩
        · intro ob hob
          exact (hInv.hstack ob hob).mono (by omega)
        · intro j hj
          simp only [Option.some.injEq] at hj
          subst hj
          exact ⟨by omega, hidxN, rfl⟩
        · intro h
          simp at h
      · rw [if_neg hreg]
        refine ⟨st, rfl, ?_⟩
        refine ⟨by omega, hInv.hblocks, ?_, ?_, hInv.hmd0⟩
        · intro ob hob
          exact (hInv.hstack ob hob).mono (by omega)
        · intro j hj
          rcases hInv.hmd j hj with ⟨h1, h2, h3⟩
          exact ⟨by omega, h2, h3⟩
    · -- opening directive
      dsimp only
      by_cases hstack : st.stack = []
      · rw [if_pos hstack]
        rcases flushMarkdown_ok src idx st.mdLine st.mdOff st.blocks hInv.hmd hInv.hmd0
          hInv.hblocks with ⟨blocks', hfl, hbv⟩
        rw [hfl]
        simp only [Option.map_some']
        have hOB : ∀ attrs2 : Attrs, StackInv src (idx + 1)
            ⟨name, attrs2, depth, idx + 1, byteStartOfLine src idx,
              min (byteStartOfLine src idx + line.length + 1) src.length⟩ := by
          intro attrs2
          refine ⟨?_, ?_, ?_, ?_, ?_, ?_⟩ <;> dsimp only
          · omega
          · omega
          · exact byteStartOfLine_succ_le src idx
          · exact hStartLen
          · omega
          · omega
        refine ⟨_, rfl, ?_⟩
        refine ⟨by omega, hbv, ?_, ?_, fun _ => rfl⟩
        · intro ob hob
          rcases hpa : parseAttrs attrsStr with e | a <;> rw [hpa] at hob <;>
            dsimp only at hob <;>
            simp only [List.mem_singleton] at hob <;> subst hob <;> exact hOB _
        · intro j hj
          rcases hpa : parseAttrs attrsStr with e | a <;> rw [hpa] at hj <;> simp at hj
      · rw [if_neg hstack]
        refine ⟨_, rfl, ?_⟩
        refine ⟨by omega, hInv.hblocks, ?_, ?_, hInv.hmd0⟩
        · intro ob hob
          simp only [List.mem_cons] at hob
          rcases hob with rfl | hob
          · refine ⟨?_, ?_, ?_, ?_, ?_, ?_⟩ <;> dsimp only
            · omega
            · omega
            · exact byteStartOfLine_succ_le src idx
            · exact hStartLen
            · exact Nat.zero_le _
            · exact Nat.zero_le _
          · exact (hInv.hstack ob hob).mono (by omega)
        · intro j hj
          rcases hInv.hmd j hj with ⟨h1, h2, h3⟩
          exact ⟨by omega, h2, h3⟩
  · -- matching close
    dsimp only
    rcases Option.bind_eq_some.mp hcl with ⟨d, hdep, hfind⟩
    have hsplit := findClose_spec st.stack d orphans target below hfind
    have htgt : target ∈ st.stack := by
      rw [hsplit]
      simp
    have htInv := hInv.hstack target htgt
    by_cases hbelow : below = []
    · rw [if_pos hbelow]
      have hs1 : target.contentStartOffset ≤ byteStartOfLine src idx := htInv.hcs
      rw [sliceChk, if_pos ⟨hs1, hStartLen⟩]
      simp only [Option.map_some']
      refine ⟨_, rfl, ?_⟩
      refine ⟨by omega, ?_, ?_, ?_, fun _ => rfl⟩
      · intro b hb
        rcases List.mem_append.mp hb with hmem | hmem
        · exact hInv.hblocks b hmem
        · simp only [List.mem_cons, List.not_mem_nil, or_false] at hmem
          subst hmem
          refine ⟨⟨by simpa [Block.span] using htInv.hone, ?_, ?_, ?_⟩, rfl⟩
          · simp only [Block.span]
            have := htInv.hle
            omega
          · simp only [Block.span]
            calc target.startOffset ≤ byteStartOfLine src idx := htInv.hso
              _ ≤ byteStartOfLine src idx + line.length := by omega
          · simp only [Block.span]
            rw [← hEndEq]
            exact hEndLen
      · intro ob hob
        rw [hbelow] at hob
        simp at hob
      · intro j hj
        simp at hj
    · rw [if_neg hbelow]
      refine ⟨_, rfl, ?_⟩
      refine ⟨by omega, hInv.hblocks, ?_, ?_, hInv.hmd0⟩
      · intro ob hob
        have : ob ∈ st.stack := by
          rw [hsplit]
          simp [hob]
        exact (hInv.hstack ob this).mono (by omega)
      · intro j hj
        rcases hInv.hmd j hj with ⟨h1, h2, h3⟩
        exact ⟨by omega, h2, h3⟩

theorem scanLinesGo_inv (src : Str) (rest : List Str) :
    ∀ (idx : Nat) (st : ScanState),
    (splitLines src).drop idx = rest →
    ScanInv src idx st →
    ∃ st', scanLinesGo src idx rest st = some st' ∧
      ScanInv src (splitLines src).length st' := by
  induction rest with
  | nil =>
    intro idx st hrest hInv
    have hlen : (splitLines src).length - idx = 0 := by
      rw [← List.length_drop, hrest]
      rfl
    have heq : idx = (splitLines src).length := by
      have := hInv.hidx
      omega
    exact ⟨st, rfl, heq ▸ hInv⟩
  | cons line rest2 ih =>
    intro idx st hrest hInv
    have hline : (splitLines src)[idx]? = some line := by
      have h0 : ((splitLines src).drop idx)[0]? = some line := by
        rw [hrest]
        simp
      rwa [List.getElem?_drop, Nat.add_zero] at h0
    rcases scanStep_inv src idx line st hline hInv with ⟨st1, hstep, hInv1⟩
    have hrest2 : (splitLines src).drop (idx + 1) = rest2 := by
      have hdd : ((splitLines src).drop idx).drop 1 = (splitLines src).drop (idx + 1) := by
        rw [List.drop_drop, Nat.add_comm]
      rw [← hdd, hrest]
      rfl
    rcases ih (idx + 1) st1 hrest2 hInv1 with ⟨st', hgo, hInv'⟩
    refine ⟨st', ?_, hInv'⟩
    simp only [scanLinesGo, hstep, Option.some_bind]
    exact hgo

theorem eofClose_valid (src : Str) (numLines : Nat) :
    ∀ (stack : List OpenBlock) (blocks : List Block) (diags : List Diagnostic),
    (∀ ob ∈ stack, StackInv src numLines ob) →
    (∀ b ∈ blocks, spanValid src.length b.span ∧ scanEmitted b = true) →
    ∀ b ∈ (eofClose src numLines stack blocks diags).1,
      spanValid src.length b.span ∧ scanEmitted b = true := by
  intro stack
  induction stack with
  | nil =>
    intro blocks diags _ hb
    simpa [eofClose] using hb
  | cons ob rest ih =>
    intro blocks diags hstack hb
    have hOB := hstack ob (by simp)
    simp only [eofClose]
    refine ih _ _ (fun o ho => hstack o (by simp [ho])) ?_
    intro b hbm
    by_cases hr : rest = []
    · rw [if_pos hr] at hbm
      rcases List.mem_append.mp hbm with hmem | hmem
      · exact hb b hmem
      · simp only [List.mem_cons, List.not_mem_nil, or_false] at hmem
        subst hmem
        exact ⟨⟨by simpa [Block.span] using hOB.hone, by simp [Block.span]; exact hOB.hle,
          by simp [Block.span]; exact hOB.hsoLen, by simp [Block.span]⟩, rfl⟩
    · rw [if_neg hr] at hbm
      exact hb b hbm

theorem scanBlocks_ok (src : Str) (bodyStart : Nat) (diags0 : List Diagnostic) :
    ∃ res, scanBlocks src (splitLines src) bodyStart diags0 = some res ∧
      ∀ b ∈ res.1, spanValid src.length b.span ∧ scanEmitted b = true := by
  by_cases hbs : bodyStart ≤ (splitLines src).length
  · have hInit : ScanInv src bodyStart ⟨[], [], none, none, diags0⟩ := by
      refine ⟨hbs, ?_, ?_, ?_, fun _ => rfl⟩
      · intro b hb
        simp at hb
      · intro ob hob
        simp at hob
      · intro j hj
        exact Option.noConfusion hj
    rcases scanLinesGo_inv src ((splitLines src).drop bodyStart) bodyStart _ rfl hInit with
      ⟨st', hgo, hInv'⟩
    rcases flushMarkdown_ok src (splitLines src).length st'.mdLine st'.mdOff st'.blocks
      hInv'.hmd hInv'.hmd0 hInv'.hblocks with ⟨blocks', hfl, hbv⟩
    refine ⟨eofClose src (splitLines src).length st'.stack blocks' st'.diags, ?_, ?_⟩
    · simp only [scanBlocks, hgo, Option.some_bind, hfl, Option.map_some']
    · exact eofClose_valid src (splitLines src).length st'.stack blocks' st'.diags
        hInv'.hstack hbv
  · have hdrop : (splitLines src).drop bodyStart = [] :=
      List.drop_eq_nil_of_le (by omega)
    refine ⟨([], diags0), ?_, ?_⟩
    · simp only [scanBlocks, hdrop, scanLinesGo, Option.some_bind, flushMarkdown,
        Option.map_some']
      rfl
    · intro b hb
      simp at hb

theorem resolveBlockF_span : ∀ (fuel : Nat) (b : Block),
    (resolveBlockF fuel b).span = b.span := by
  intro fuel b
  cases fuel with
  | zero => rfl
  | succ n =>
    cases b <;> try rfl
    rename_i name attrs content sp
    simp only [resolveBlockF]
    by_cases h1 : name = chars "callout"
    · rw [if_pos h1]
      rfl
    rw [if_neg h1]
    by_cases h2 : name = chars "data"
    · rw [if_pos h2]
      rfl
    rw [if_neg h2]
    by_cases h3 : name = chars "code"
    · rw [if_pos h3]
      rfl
    rw [if_neg h3]
    by_cases h4 : name = chars "tasks"
    · rw [if_pos h4]
      rfl
    rw [if_neg h4]
    by_cases h5 : name = chars "decision"
    · rw [if_pos h5]
      rfl
    rw [if_neg h5]
    by_cases h6 : name = chars "metric"
    · rw [if_pos h6]
      rfl
    rw [if_neg h6]
    by_cases h7 : name = chars "summary"
    · rw [if_pos h7]
      rfl
    rw [if_neg h7]
    by_cases h8 : name = chars "figure"
    · rw [if_pos h8]
      rfl
    rw [if_neg h8]
    by_cases h9 : name = chars "tabs"
    · rw [if_pos h9]
      rfl
    rw [if_neg h9]
    by_cases h10 : name = chars "columns"
    · rw [if_pos h10]
      rfl
    rw [if_neg h10]
    by_cases h11 : name = chars "quote"
    · rw [if_pos h11]
      rfl
    rw [if_neg h11]
    by_cases h12 : name = chars "cta"
    · rw [if_pos h12]
      rfl
    rw [if_neg h12]
    by_cases h13 : name = chars "hero-image"
    · rw [if_pos h13]
      rfl
    rw [if_neg h13]
    by_cases h14 : name = chars "testimonial"
    · rw [if_pos h14]
      rfl
    rw [if_neg h14]
    by_cases h15 : name = chars "style"
    · rw [if_pos h15]
      rfl
    rw [if_neg h15]
    by_cases h16 : name = chars "faq"
    · rw [if_pos h16]
      rfl
    rw [if_neg h16]
    by_cases h17 : name = chars "pricing-table"
    · rw [if_pos h17]
      rfl
    rw [if_neg h17]
    by_cases h18 : name = chars "site"
    · rw [if_pos h18]
      rfl
    rw [if_neg h18]
    by_cases h19 : name = chars "page"
    · rw [if_pos h19]
      rfl
    rw [if_neg h19]

theorem childSpansDummy_of_not_page (b : Block) (h : isPage b = false) :
    childSpansDummy b = true := by
  cases b <;> first
    | (simp [childSpansDummy]; done)
    | simp [isPage] at h


theorem resolveTop_span (b : Block) : (resolveTop b).span = b.span := by
  cases b <;> try rfl
  exact resolveBlockF_span _ _

theorem flushMdLines_dummy (md : List Str) :
    ∀ b ∈ flushMdLines md, b.span = dummySpan ∧ childSpansDummy b = true := by
  intro b hb
  simp only [flushMdLines] at hb
  split at hb
  · simp only [List.mem_cons, List.not_mem_nil, or_false] at hb
    subst hb
    exact ⟨rfl, childSpansDummy_of_not_page _ rfl⟩
  · simp at hb

theorem tryParseLeafDirective_dummy (resolve : Block → Block)
    (hres : ∀ name attrs content,
      (resolve (.unknown name attrs content dummySpan)).span = dummySpan ∧
        childSpansDummy (resolve (.unknown name attrs content dummySpan)) = true)
    (line : Str) (b : Block) (hb : tryParseLeafDirective resolve line = some b) :
    b.span = dummySpan ∧ childSpansDummy b = true := by
  simp only [tryParseLeafDirective] at hb
  repeat' split at hb
  all_goals first
    | exact Option.noConfusion hb
    | (simp only [Option.some.injEq] at hb; subst hb; exact hres _ _ _)

theorem pageGo_dummy (resolve : Block → Block)
    (hres : ∀ name attrs content,
      (resolve (.unknown name attrs content dummySpan)).span = dummySpan ∧
        childSpansDummy (resolve (.unknown name attrs content dummySpan)) = true)
    (lines : List Str) :
    ∀ (fuel i : Nat) (md : List Str) (children : List Block),
    (∀ b ∈ children, b.span = dummySpan ∧ childSpansDummy b = true) →
    ∀ b ∈ pageGo resolve lines fuel i md children,
      b.span = dummySpan ∧ childSpansDummy b = true := by
  intro fuel
  induction fuel with
  | zero =>
    intro i md children hch b hb
    simp only [pageGo] at hb
    rcases List.mem_append.mp hb with hmem | hmem
    · exact hch b hmem
    · exact flushMdLines_dummy md b hmem
  | succ n ih =>
    intro i md children hch b hb
    simp only [pageGo] at hb
    rcases hli : lines[i]? with _ | line
    · rw [hli] at hb
      dsimp only at hb
      rcases List.mem_append.mp hb with hmem | hmem
      · exact hch b hmem
      · exact flushMdLines_dummy md b hmem
    · rw [hli] at hb
      dsimp only at hb
      rcases hop : openingDirective (trimStr line) with _ | ⟨depth, name, attrsStr⟩
      · rw [hop] at hb
        dsimp only at hb
        split at hb
        · exact ih _ _ _ hch b hb
        · exact ih _ _ _ hch b hb
      · rw [hop] at hb
        dsimp only at hb
        rcases hscc : scanContainerClose lines (i + 1) depth with _ | ⟨contentStr, endIdx⟩
        · rw [hscc] at hb
          dsimp only at hb
          rcases htl : tryParseLeafDirective resolve line with _ | blk
          · rw [htl] at hb
            dsimp only at hb
            split at hb
            · exact ih _ _ _ hch b hb
            · exact ih _ _ _ hch b hb
          · rw [htl] at hb
            dsimp only at hb
            refine ih _ _ _ ?_ b hb
            intro c hc
            rcases List.mem_append.mp hc with hc2 | hc2
            · rcases List.mem_append.mp hc2 with hc3 | hc3
              · exact hch c hc3
              · exact flushMdLines_dummy md c hc3
            · simp only [List.mem_cons, List.not_mem_nil, or_false] at hc2
              subst hc2
              exact tryParseLeafDirective_dummy resolve hres line c htl
        · rw [hscc] at hb
          dsimp only at hb
          refine ih _ _ _ ?_ b hb
          intro c hc
          rcases List.mem_append.mp hc with hc2 | hc2
          · rcases List.mem_append.mp hc2 with hc3 | hc3
            · exact hch c hc3
            · exact flushMdLines_dummy md c hc3
          · simp only [List.mem_cons, List.not_mem_nil, or_false] at hc2
            subst hc2
            exact hres _ _ _

theorem resolveBlockF_dummy : ∀ (fuel : Nat) (b : Block),
    childSpansDummy b = true → childSpansDummy (resolveBlockF fuel b) = true := by
  intro fuel
  induction fuel with
  | zero => intro b h; exact h
  | succ n ih =>
    intro b h
    cases b <;> try exact h
    rename_i name attrs content sp
    simp only [resolveBlockF]
    by_cases h1 : name = chars "callout"
    · rw [if_pos h1]
      exact childSpansDummy_of_not_page _ rfl
    rw [if_neg h1]
    by_cases h2 : name = chars "data"
    · rw [if_pos h2]
      exact childSpansDummy_of_not_page _ rfl
    rw [if_neg h2]
    by_cases h3 : name = chars "code"
    · rw [if_pos h3]
      exact childSpansDummy_of_not_page _ rfl
    rw [if_neg h3]
    by_cases h4 : name = chars "tasks"
    · rw [if_pos h4]
      exact childSpansDummy_of_not_page _ rfl
    rw [if_neg h4]
    by_cases h5 : name = chars "decision"
    · rw [if_pos h5]
      exact childSpansDummy_of_not_page _ rfl
    rw [if_neg h5]
    by_cases h6 : name = chars "metric"
    · rw [if_pos h6]
      exact childSpansDummy_of_not_page _ rfl
    rw [if_neg h6]
    by_cases h7 : name = chars "summary"
    · rw [if_pos h7]
      exact childSpansDummy_of_not_page _ rfl
    rw [if_neg h7]
    by_cases h8 : name = chars "figure"
    · rw [if_pos h8]
      exact childSpansDummy_of_not_page _ rfl
    rw [if_neg h8]
    by_cases h9 : name = chars "tabs"
    · rw [if_pos h9]
      exact childSpansDummy_of_not_page _ rfl
    rw [if_neg h9]
    by_cases h10 : name = chars "columns"
    · rw [if_pos h10]
      exact childSpansDummy_of_not_page _ rfl
    rw [if_neg h10]
    by_cases h11 : name = chars "quote"
    · rw [if_pos h11]
      exact childSpansDummy_of_not_page _ rfl
    rw [if_neg h11]
    by_cases h12 : name = chars "cta"
    · rw [if_pos h12]
      exact childSpansDummy_of_not_page _ rfl
    rw [if_neg h12]
    by_cases h13 : name = chars "hero-image"
    · rw [if_pos h13]
      exact childSpansDummy_of_not_page _ rfl
    rw [if_neg h13]
    by_cases h14 : name = chars "testimonial"
    · rw [if_pos h14]
      exact childSpansDummy_of_not_page _ rfl
    rw [if_neg h14]
    by_cases h15 : name = chars "style"
    · rw [if_pos h15]
      exact childSpansDummy_of_not_page _ rfl
    rw [if_neg h15]
    by_cases h16 : name = chars "faq"
    · rw [if_pos h16]
      exact childSpansDummy_of_not_page _ rfl
    rw [if_neg h16]
    by_cases h17 : name = chars "pricing-table"
    · rw [if_pos h17]
      exact childSpansDummy_of_not_page _ rfl
    rw [if_neg h17]
    by_cases h18 : name = chars "site"
    · rw [if_pos h18]
      exact childSpansDummy_of_not_page _ rfl
    rw [if_neg h18]
    by_cases h19 : name = chars "page"
    case neg =>
      rw [if_neg h19]
      exact childSpansDummy_of_not_page _ rfl
    rw [if_pos h19]
    simp only [parsePage, childSpansDummy, List.all_eq_true]
    intro c _
    have hres : ∀ nm at2 ct,
        (resolveBlockF n (.unknown nm at2 ct dummySpan)).span = dummySpan ∧
          childSpansDummy (resolveBlockF n (.unknown nm at2 ct dummySpan)) = true :=
      fun nm at2 ct => ⟨resolveBlockF_span n _, ih _ (childSpansDummy_of_not_page _ rfl)⟩
    have := pageGo_dummy (resolveBlockF n) hres (rustLines content)
      (rustLines content).length.succ 0 [] [] (by intro b hb; simp at hb) c.1 ?_
    · simp only [Bool.and_eq_true, beq_iff_eq]
      exact ⟨this.1, this.2⟩
    · have hc := c.2
      simpa [parsePageChildren] using hc

theorem resolveTop_dummy (b : Block) (h : scanEmitted b = true) :
    childSpansDummy (resolveTop b) = true := by
  cases b <;> simp [scanEmitted] at h
  · exact resolveBlockF_dummy _ _ (childSpansDummy_of_not_page _ rfl)
  · exact childSpansDummy_of_not_page _ rfl

theorem parse_ok (yamlP : Str → Except Str FrontMatter) (input : Str) :
    ∃ r, parse yamlP input = some r ∧
      ∀ b ∈ r.doc.blocks, spanValid r.doc.source.length b.span ∧
        childSpansDummy b = true := by
  rcases hfm : extractFrontMatter yamlP (splitLines (normalizeCRLF input))
      (normalizeCRLF input) with ⟨fm, bodyStart, d0⟩
  rcases scanBlocks_ok (normalizeCRLF input) bodyStart d0 with ⟨⟨blocks, diags⟩, hsb, hval⟩
  refine ⟨⟨⟨fm, blocks.map resolveTop, normalizeCRLF input⟩, diags⟩, ?_, ?_⟩
  · simp only [parse, hfm, hsb, Option.map_some']
  · intro b hb
    simp only [List.mem_map] at hb
    rcases hb with ⟨b0, hb0, rfl⟩
    rcases hval b0 hb0 with ⟨hsp, hem⟩
    refine ⟨?_, resolveTop_dummy b0 hem⟩
    rw [resolveTop_span]
    exact hsp

theorem hasDDL_tail (a : Char) (t : Str) (h : hasDDL (a :: t) = false) :
    hasDDL t = false := by
  match t with
  | [] => rfl
  | [b] => rfl
  | b :: c :: r =>
    simp only [hasDDL, Bool.or_eq_false_iff] at h
    exact h.2

theorem hasDDL_cons_true (a : Char) (t : Str) (h : hasDDL t = true) :
    hasDDL (a :: t) = true := by
  match t with
  | [] => exact Bool.noConfusion h
  | [b] => exact Bool.noConfusion h
  | b :: c :: r =>
    simp only [hasDDL] at h ⊢
    rw [h]
    simp

theorem hasDDL_append_inl (x y : Str) (h : hasDDL x = true) :
    hasDDL (x ++ y) = true := by
  induction x with
  | nil => exact Bool.noConfusion h
  | cons a t ih =>
    match t, h with
    | b :: c :: r, h =>
      simp only [hasDDL, Bool.or_eq_true] at h
      rcases h with h | h
      · simp only [List.cons_append, hasDDL, h]
        simp
      · have := ih h
        simp only [List.cons_append] at this ⊢
        exact hasDDL_cons_true a _ this

theorem hasDDL_append_inr (x y : Str) (h : hasDDL y = true) :
    hasDDL (x ++ y) = true := by
  induction x with
  | nil => simpa
  | cons a t ih =>
    simp only [List.cons_append]
    exact hasDDL_cons_true a _ ih

theorem hasDDL_app_start (x y : Str) (hx : hasDDL x = false) (hy : hasDDL y = false)
    (hsy : startOK y = true) : hasDDL (x ++ y) = false := by
  induction x with
  | nil => simpa
  | cons a t ih =>
    have ht := ih (hasDDL_tail a t hx)
    match t with
    | u :: v :: t2 =>
      simp only [List.cons_append, hasDDL, Bool.or_eq_false_iff]
      refine ⟨?_, by simpa using ht⟩
      simp only [hasDDL, Bool.or_eq_false_iff] at hx
      simpa using hx.1
    | [u] =>
      match y with
      | [] => rfl
      | v :: y2 =>
        simp only [List.cons_append, List.singleton_append, hasDDL,
          Bool.or_eq_false_iff]
        refine ⟨?_, by simpa using ht⟩
        match y2, hsy with
        | [], hsy =>
          simp only [startOK, Bool.not_eq_true'] at hsy
          simp [hsy]
        | w :: y3, hsy =>
          simp only [startOK, Bool.and_eq_true, Bool.or_eq_true, Bool.not_eq_true'] at hsy
          simp [hsy.1]
    | [] =>
      match y with
      | [] => rfl
      | [v] => rfl
      | v :: w :: y3 =>
        simp only [List.cons_append, List.nil_append, hasDDL, Bool.or_eq_false_iff]
        refine ⟨?_, by simpa using ht⟩
        simp only [startOK, Bool.and_eq_true, Bool.or_eq_true, Bool.not_eq_true'] at hsy
        rcases hsy.2 with hv | hw
        · simp [hv]
        · simp [hw]

theorem endOK_tail (a : Char) (t : Str) (h : endOK (a :: t) = true) :
    endOK t = true := by
  match t with
  | [] => rfl
  | c :: t2 => exact h

theorem hasDDL_app_end (x y : Str) (hx : hasDDL x = false) (hex : endOK x = true)
    (hy : hasDDL y = false) : hasDDL (x ++ y) = false := by
  induction x with
  | nil => simpa
  | cons a t ih =>
    have ht := ih (hasDDL_tail a t hx) (endOK_tail a t hex)
    match t with
    | [] =>
      match y with
      | [] => rfl
      | [v] => rfl
      | v :: w :: y3 =>
        simp only [List.cons_append, List.nil_append, hasDDL, Bool.or_eq_false_iff]
        refine ⟨?_, by simpa using hy⟩
        simp only [endOK, Bool.not_eq_true'] at hex
        simp [hex]
    | [u] =>
      match y with
      | [] => rfl
      | v :: y2 =>
        simp only [List.cons_append, List.singleton_append, hasDDL,
          Bool.or_eq_false_iff]
        refine ⟨?_, by simpa using ht⟩
        simp only [endOK, Bool.not_eq_true'] at hex
        simp [hex]
    | u :: v :: t2 =>
      simp only [List.cons_append, hasDDL, Bool.or_eq_false_iff]
      refine ⟨?_, by simpa using ht⟩
      simp only [hasDDL, Bool.or_eq_false_iff] at hx
      simpa using hx.1

theorem startOK_cons (c : Char) (t : Str) (h1 : c.isAlpha = false)
    (h2 : (c == ':') = false) : startOK (c :: t) = true := by
  match t with
  | [] => simp [startOK, h1]
  | d :: t2 => simp [startOK, h1, h2]

theorem hasDDL_joinSep (sep : Str) (hsep : hasDDL sep = false) (hend : endOK sep = true)
    (hst : strongStart sep = true) :
    ∀ ls : List Str, (∀ l ∈ ls, hasDDL l = false) →
      hasDDL (joinSep sep ls) = false := by
  intro ls
  induction ls with
  | nil => intro _; rfl
  | cons l rest ih =>
    intro h
    match rest with
    | [] => exact h l (by simp)
    | l2 :: rest2 =>
      have hJ : hasDDL (joinSep sep (l2 :: rest2)) = false :=
        ih (fun x hx => h x (by simp [hx]))
      have hsepJ : hasDDL (sep ++ joinSep sep (l2 :: rest2)) = false :=
        hasDDL_app_end sep _ hsep hend hJ
      have hstart : startOK (sep ++ joinSep sep (l2 :: rest2)) = true := by
        match sep, hst with
        | c :: t, hst =>
          simp only [strongStart, Bool.and_eq_true, Bool.not_eq_true'] at hst
          exact startOK_cons c _ hst.1 hst.2
      show hasDDL (l ++ sep ++ joinSep sep (l2 :: rest2)) = false
      rw [List.append_assoc]
      exact hasDDL_app_start _ _ (h l (by simp)) hsepJ hstart

theorem hasDDL_infix (l s : Str) (h : l <:+: s) (hs : hasDDL s = false) :
    hasDDL l = false := by
  by_contra hl
  rw [Bool.not_eq_false] at hl
  rcases h with ⟨u, v, rfl⟩
  have : hasDDL (u ++ (l ++ v)) = true :=
    hasDDL_append_inr u _ (hasDDL_append_inl l v hl)
  rw [List.append_assoc] at hs
  rw [hs] at this
  exact Bool.noConfusion this

theorem splitLines_shape : ∀ s : Str, ∃ l ls, splitLines s = l :: ls ∧
    l <+: s ∧ ∀ x ∈ ls, x <:+: s := by
  intro s
  induction s with
  | nil => exact ⟨[], [], rfl, List.nil_prefix, by simp⟩
  | cons c rest ih =>
    rcases ih with ⟨l, ls, hsplit, hpre, hmem⟩
    by_cases hc : c = '\n'
    · subst hc
      refine ⟨[], splitLines rest, by simp [splitLines], List.nil_prefix, ?_⟩
      intro x hx
      rw [hsplit] at hx
      rcases List.mem_cons.mp hx with rfl | hx2
      · exact (hpre.isInfix).trans (List.infix_cons_iff.mpr (Or.inr (List.infix_refl _)))
      · exact (hmem x hx2).trans (List.infix_cons_iff.mpr (Or.inr (List.infix_refl _)))
    · refine ⟨c :: l, ls, by simp [splitLines, hc, hsplit], ?_, ?_⟩
      · exact List.cons_prefix_cons.mpr ⟨rfl, hpre⟩
      · intro x hx
        exact (hmem x hx).trans (List.infix_cons_iff.mpr (Or.inr (List.infix_refl _)))

theorem rustLines_safe (content : Str) (h : hasDDL content = false) :
    ∀ l ∈ rustLines content, hasDDL l = false := by
  intro l hl
  rcases splitLines_shape content with ⟨p, ps, hsplit, hpre, hmem⟩
  have hin : l ∈ splitLines content := by
    simp only [rustLines] at hl
    split at hl
    · exact List.dropLast_subset _ hl
    · exact hl
  rw [hsplit] at hin
  rcases List.mem_cons.mp hin with rfl | hin2
  · exact hasDDL_infix l content hpre.isInfix h
  · exact hasDDL_infix l content (hmem l hin2) h

theorem hasDDL_of_occurs (c : Char) (p : Str) (hc : c.isAlpha = true) :
    ∀ s, occursList (':' :: ':' :: c :: p) s = true → hasDDL s = true := by
  intro s
  induction s with
  | nil =>
    intro h
    simp [occursList, List.isPrefixOf] at h
  | cons a t ih =>
    intro h
    simp only [occursList, Bool.or_eq_true] at h
    rcases h with h | h
    · match t, h with
      | [], h => simp [List.isPrefixOf] at h
      | [b], h => simp [List.isPrefixOf] at h
      | b :: d :: t3, h =>
        simp only [List.isPrefixOf, Bool.and_eq_true, beq_iff_eq] at h
        rcases h with ⟨rfl, rfl, rfl, _⟩
        simp [hasDDL, hc]
    · exact hasDDL_cons_true a t (ih h)

theorem containsKnown_hasDDL (s : Str) (h : containsKnownDirective s = true) :
    hasDDL s = true := by
  simp only [containsKnownDirective, List.any_eq_true] at h
  rcases h with ⟨k, hk, hocc⟩
  simp only [knownBlockNames, List.mem_cons, List.not_mem_nil, or_false] at hk
  rcases hk with rfl | rfl | rfl | rfl | rfl | rfl | rfl | rfl | rfl | rfl | rfl | rfl
    | rfl | rfl | rfl | rfl | rfl | rfl | rfl
  · exact hasDDL_of_occurs 'c' (chars "allout") (by decide) s hocc
  · exact hasDDL_of_occurs 'd' (chars "ata") (by decide) s hocc
  · exact hasDDL_of_occurs 'c' (chars "ode") (by decide) s hocc
  · exact hasDDL_of_occurs 't' (chars "asks") (by decide) s hocc
  · exact hasDDL_of_occurs 'd' (chars "ecision") (by decide) s hocc
  · exact hasDDL_of_occurs 'm' (chars "etric") (by decide) s hocc
  · exact hasDDL_of_occurs 's' (chars "ummary") (by decide) s hocc
  · exact hasDDL_of_occurs 'f' (chars "igure") (by decide) s hocc
  · exact hasDDL_of_occurs 't' (chars "abs") (by decide) s hocc
  · exact hasDDL_of_occurs 'c' (chars "olumns") (by decide) s hocc
  · exact hasDDL_of_occurs 'q' (chars "uote") (by decide) s hocc
  · exact hasDDL_of_occurs 'c' (chars "ta") (by decide) s hocc
  · exact hasDDL_of_occurs 'h' (chars "ero-image") (by decide) s hocc
  · exact hasDDL_of_occurs 't' (chars "estimonial") (by decide) s hocc
  · exact hasDDL_of_occurs 's' (chars "tyle") (by decide) s hocc
  · exact hasDDL_of_occurs 'f' (chars "aq") (by decide) s hocc
  · exact hasDDL_of_occurs 'p' (chars "ricing-table") (by decide) s hocc
  · exact hasDDL_of_occurs 's' (chars "ite") (by decide) s hocc
  · exact hasDDL_of_occurs 'p' (chars "age") (by decide) s hocc

theorem endOK_append (x y : Str) (hy : endOK y = true) (hne : y ≠ []) :
    endOK (x ++ y) = true := by
  induction x with
  | nil => simpa
  | cons a t ih =>
    rcases hty : t ++ y with _ | ⟨w, rest⟩
    · rcases List.append_eq_nil.mp hty with ⟨_, rfl⟩
      exact absurd rfl hne
    · show endOK (a :: (t ++ y)) = true
      rw [hty]
      show endOK (w :: rest) = true
      rw [← hty]
      exact ih

theorem startOK_append (s t : Str) (h : strongStart s = true) :
    startOK (s ++ t) = true := by
  match s, h with
  | c :: s2, h =>
    simp only [strongStart, Bool.and_eq_true, Bool.not_eq_true'] at h
    show startOK (c :: (s2 ++ t)) = true
    exact startOK_cons c _ h.1 h.2

theorem hasDDL_tableRow (cells : List Str) (hc : ∀ c ∈ cells, hasDDL c = false) :
    hasDDL (chars "| " ++ joinSep (chars " | ") cells ++ chars " |") = false := by
  have hJ := hasDDL_joinSep (chars " | ") (by decide) (by decide) (by decide) cells hc
  have h1 : hasDDL (chars "| " ++ joinSep (chars " | ") cells) = false :=
    hasDDL_app_end _ _ (by decide) (by decide) hJ
  exact hasDDL_app_start _ _ h1 (by decide) (by decide)

theorem hasDDL_tableRender (headers : List Str) (rows : List (List Str))
    (hh : ∀ x ∈ headers, hasDDL x = false)
    (hr : ∀ r ∈ rows, ∀ c ∈ r, hasDDL c = false) :
    hasDDL (joinSep (chars "\n")
      ([chars "| " ++ joinSep (chars " | ") headers ++ chars " |",
        chars "| " ++ joinSep (chars " | ") (headers.map (fun _ => chars "---"))
          ++ chars " |"] ++
        rows.map (fun row => chars "| " ++ joinSep (chars " | ") row ++ chars " |")))
      = false := by
  refine hasDDL_joinSep (chars "\n") (by decide) (by decide) (by decide) _ ?_
  intro l hl
  rcases List.mem_append.mp hl with h2 | h2
  · rcases List.mem_cons.mp h2 with rfl | h3
    · exact hasDDL_tableRow headers hh
    · rcases List.mem_cons.mp h3 with rfl | h4
      · refine hasDDL_tableRow _ ?_
        intro c hc
        rcases List.mem_map.mp hc with ⟨_, _, rfl⟩
        decide
      · simp at h4
  · rcases List.mem_map.mp h2 with ⟨row, hrow, rfl⟩
    exact hasDDL_tableRow row (hr row hrow)

theorem mdSafe_render (b : Block) (h : mdSafeB b = true) :
    hasDDL (renderBlockMd b) = false := by
  cases b with
  | unknown name attrs content sp => exact absurd h (by simp [mdSafeB])
  | markdown content sp =>
    simpa only [mdSafeB, Bool.not_eq_true'] using h
  | callout ct title content sp =>
    simp only [mdSafeB, Bool.and_eq_true, Bool.not_eq_true'] at h
    have hTL : hasDDL (calloutTypeLabel ct) = false := by cases ct <;> decide
    have h1 : hasDDL (chars "**" ++ calloutTypeLabel ct) = false :=
      hasDDL_app_end _ _ (by decide) (by decide) hTL
    rcases title with _ | t
    · simp only [renderBlockMd]
      have hpre : hasDDL (chars "**" ++ calloutTypeLabel ct ++ chars "**") = false :=
        hasDDL_app_start _ _ h1 (by decide) (by decide)
      refine hasDDL_joinSep (chars "\n") (by decide) (by decide) (by decide) _ ?_
      intro l hl
      rcases List.mem_cons.mp hl with rfl | hl2
      · exact hasDDL_app_end _ _ (by decide) (by decide) hpre
      · rcases List.mem_map.mp hl2 with ⟨x, hx, rfl⟩
        exact hasDDL_app_end _ _ (by decide) (by decide) (rustLines_safe content h.2 x hx)
    · simp only [renderBlockMd]
      have h2 : hasDDL (chars "**" ++ calloutTypeLabel ct ++ chars "**: ") = false :=
        hasDDL_app_start _ _ h1 (by decide) (by decide)
      have hpre : hasDDL (chars "**" ++ calloutTypeLabel ct ++ chars "**: "
          ++ t) = false :=
        hasDDL_app_end _ _ h2 (endOK_append _ _ (by decide) (by decide))
          (by simpa using h.1)
      refine hasDDL_joinSep (chars "\n") (by decide) (by decide) (by decide) _ ?_
      intro l hl
      rcases List.mem_cons.mp hl with rfl | hl2
      · exact hasDDL_app_end _ _ (by decide) (by decide) hpre
      · rcases List.mem_map.mp hl2 with ⟨x, hx, rfl⟩
        exact hasDDL_app_end _ _ (by decide) (by decide) (rustLines_safe content h.2 x hx)
  | data id format sortable headers rows rawContent sp =>
    simp only [mdSafeB, Bool.and_eq_true] at h
    simp only [renderBlockMd]
    split
    · rfl
    · refine hasDDL_tableRender headers rows ?_ ?_
      · intro x hx
        have := List.all_eq_true.mp h.1 x hx
        simpa using this
      · intro r hr c hc
        have := List.all_eq_true.mp (List.all_eq_true.mp h.2 r hr) c hc
        simpa using this
  | code lang file highlight content sp =>
    simp only [mdSafeB, Bool.and_eq_true, Bool.not_eq_true'] at h
    simp only [renderBlockMd]
    have h1 : hasDDL (chars "```" ++ lang.getD []) = false :=
      hasDDL_app_end _ _ (by decide) (by decide) h.1
    have h2 : hasDDL (chars "```" ++ lang.getD [] ++ chars "\n") = false :=
      hasDDL_app_start _ _ h1 (by decide) (by decide)
    have h3 : hasDDL (chars "```" ++ lang.getD [] ++ chars "\n" ++ content) = false :=
      hasDDL_app_end _ _ h2 (endOK_append _ _ (by decide) (by decide)) h.2
    exact hasDDL_app_start _ _ h3 (by decide) (by decide)
  | tasks items sp =>
    simp only [mdSafeB] at h
    simp only [renderBlockMd]
    refine hasDDL_joinSep (chars "\n") (by decide) (by decide) (by decide) _ ?_
    intro l hl
    rcases List.mem_map.mp hl with ⟨item, hitem, rfl⟩
    have hi := List.all_eq_true.mp h item hitem
    simp only [Bool.and_eq_true, Bool.not_eq_true'] at hi
    have hck : hasDDL (if item.done then ['x'] else [' ']) = false := by
      cases hdone : item.done <;> decide
    have h1 : hasDDL (chars "- [" ++ (if item.done then ['x'] else [' '])) = false :=
      hasDDL_app_end _ _ (by decide) (by decide) hck
    have h2 : hasDDL (chars "- [" ++ (if item.done then ['x'] else [' '])
        ++ chars "] ") = false :=
      hasDDL_app_start _ _ h1 (by decide) (by decide)
    have h3 : hasDDL (chars "- [" ++ (if item.done then ['x'] else [' '])
        ++ chars "] " ++ item.text) = false :=
      hasDDL_app_end _ _ h2 (endOK_append _ _ (by decide) (by decide)) hi.1
    rcases ha : item.assignee with _ | a
    · dsimp only
      exact h3
    · dsimp only
      have h4 : hasDDL (chars "- [" ++ (if item.done then ['x'] else [' '])
          ++ chars "] " ++ item.text ++ chars " @") = false :=
        hasDDL_app_start _ _ h3 (by decide) (by decide)
      have ha2 : hasDDL a = false := by
        have hgd := hi.2
        rw [ha] at hgd
        simpa using hgd
      exact hasDDL_app_end _ _ h4 (endOK_append _ _ (by decide) (by decide)) ha2
  | decision status date deciders content sp =>
    simp only [mdSafeB, Bool.and_eq_true, Bool.not_eq_true'] at h
    simp only [renderBlockMd]
    have hSL : hasDDL (decisionStatusLabel status) = false := by cases status <;> decide
    have h1 : hasDDL (chars "> **Decision** (" ++ decisionStatusLabel status) = false :=
      hasDDL_app_end _ _ (by decide) (by decide) hSL
    have h2 : hasDDL (chars "> **Decision** (" ++ decisionStatusLabel status
        ++ chars ")") = false :=
      hasDDL_app_start _ _ h1 (by decide) (by decide)
    rcases date with _ | d
    · have hhead : hasDDL (chars "> **Decision** (" ++ decisionStatusLabel status
          ++ chars ")" ++ ([] : Str)) = false := by simpa using h2
      refine hasDDL_joinSep (chars "\n") (by decide) (by decide) (by decide) _ ?_
      intro l hl
      rcases List.mem_cons.mp hl with rfl | hl2
      · exact hhead
      · rcases List.mem_map.mp hl2 with ⟨x, hx, rfl⟩
        exact hasDDL_app_end _ _ (by decide) (by decide) (rustLines_safe content h.2 x hx)
    · have hd : hasDDL d = false := by simpa using h.1
      have hd1 : hasDDL (chars " (" ++ d) = false :=
        hasDDL_app_end _ _ (by decide) (by decide) hd
      have hd2 : hasDDL (chars " (" ++ d ++ chars ")") = false :=
        hasDDL_app_start _ _ hd1 (by decide) (by decide)
      have hhead : hasDDL (chars "> **Decision** (" ++ decisionStatusLabel status
          ++ chars ")" ++ (chars " (" ++ d ++ chars ")")) = false := by
        refine hasDDL_app_start _ _ h2 hd2 ?_
        rw [List.append_assoc]
        exact startOK_append _ _ (by decide)
      refine hasDDL_joinSep (chars "\n") (by decide) (by decide) (by decide) _ ?_
      intro l hl
      rcases List.mem_cons.mp hl with rfl | hl2
      · exact hhead
      · rcases List.mem_map.mp hl2 with ⟨x, hx, rfl⟩
        exact hasDDL_app_end _ _ (by decide) (by decide) (rustLines_safe content h.2 x hx)
  | metric label value trend unit sp =>
    simp only [mdSafeB, Bool.and_eq_true, Bool.not_eq_true'] at h
    simp only [renderBlockMd]
    have h1 : hasDDL (chars "**" ++ label) = false :=
      hasDDL_app_end _ _ (by decide) (by decide) h.1.1
    have h2 : hasDDL (chars "**" ++ label ++ chars "**: ") = false :=
      hasDDL_app_start _ _ h1 (by decide) (by decide)
    have h3 : hasDDL (chars "**" ++ label ++ chars "**: " ++ value) = false :=
      hasDDL_app_end _ _ h2 (endOK_append _ _ (by decide) (by decide)) h.1.2
    rcases unit with _ | u
    · rcases trend with _ | tr
      · dsimp only
        simpa using h3
      · cases tr <;> dsimp only <;>
          exact hasDDL_app_start _ _ (by simpa using h3) (by decide) (by decide)
    · have hu : hasDDL u = false := by simpa using h.2
      have h4 : hasDDL (chars " " ++ u) = false :=
        hasDDL_app_end _ _ (by decide) (by decide) hu
      have h5 : hasDDL (chars "**" ++ label ++ chars "**: " ++ value
          ++ (chars " " ++ u)) = false :=
        hasDDL_app_start _ _ h3 h4 (startOK_append _ _ (by decide))
      rcases trend with _ | tr
      · dsimp only
        simpa using h5
      · cases tr <;> dsimp only <;>
          exact hasDDL_app_start _ _ h5 (by decide) (by decide)
  | summary content sp =>
    simp only [mdSafeB, Bool.not_eq_true'] at h
    simp only [renderBlockMd]
    refine hasDDL_joinSep (chars "\n") (by decide) (by decide) (by decide) _ ?_
    intro l hl
    rcases List.mem_map.mp hl with ⟨x, hx, rfl⟩
    have h1 : hasDDL (chars "> *" ++ x) = false :=
      hasDDL_app_end _ _ (by decide) (by decide) (rustLines_safe content h x hx)
    exact hasDDL_app_start _ _ h1 (by decide) (by decide)
  | figure src caption alt width sp =>
    simp only [mdSafeB, Bool.and_eq_true, Bool.not_eq_true'] at h
    simp only [renderBlockMd]
    have h1 : hasDDL (chars "![" ++ alt.getD []) = false :=
      hasDDL_app_end _ _ (by decide) (by decide) h.2
    have h2 : hasDDL (chars "![" ++ alt.getD [] ++ chars "](") = false :=
      hasDDL_app_start _ _ h1 (by decide) (by decide)
    have h3 : hasDDL (chars "![" ++ alt.getD [] ++ chars "](" ++ src) = false :=
      hasDDL_app_end _ _ h2 (endOK_append _ _ (by decide) (by decide)) h.1.1
    have h4 : hasDDL (chars "![" ++ alt.getD [] ++ chars "](" ++ src
        ++ chars ")") = false :=
      hasDDL_app_start _ _ h3 (by decide) (by decide)
    rcases caption with _ | c
    · exact h4
    · have h5 : hasDDL (chars "![" ++ alt.getD [] ++ chars "](" ++ src ++ chars ")"
          ++ chars "\n*") = false :=
        hasDDL_app_start _ _ h4 (by decide) (by decide)
      have hc : hasDDL c = false := by simpa using h.1.2
      have h6 : hasDDL (chars "![" ++ alt.getD [] ++ chars "](" ++ src ++ chars ")"
          ++ chars "\n*" ++ c) = false :=
        hasDDL_app_end _ _ h5 (endOK_append _ _ (by decide) (by decide)) hc
      exact hasDDL_app_start _ _ h6 (by decide) (by decide)
  | tabs tabs sp =>
    simp only [mdSafeB] at h
    simp only [renderBlockMd]
    refine hasDDL_joinSep (chars "\n\n") (by decide) (by decide) (by decide) _ ?_
    intro l hl
    rcases List.mem_map.mp hl with ⟨tab, htab, rfl⟩
    have hi := List.all_eq_true.mp h tab htab
    simp only [Bool.and_eq_true, Bool.not_eq_true'] at hi
    have h1 : hasDDL (chars "### " ++ tab.label) = false :=
      hasDDL_app_end _ _ (by decide) (by decide) hi.1
    have h2 : hasDDL (chars "### " ++ tab.label ++ chars "\n\n") = false :=
      hasDDL_app_start _ _ h1 (by decide) (by decide)
    exact hasDDL_app_end _ _ h2 (endOK_append _ _ (by decide) (by decide)) hi.2
  | columns columns sp =>
    simp only [mdSafeB] at h
    simp only [renderBlockMd]
    refine hasDDL_joinSep (chars "\n\n---\n\n") (by decide) (by decide) (by decide) _ ?_
    intro l hl
    rcases List.mem_map.mp hl with ⟨col, hcol, rfl⟩
    have := List.all_eq_true.mp h col hcol
    simpa using this
  | quote content attribution cite sp =>
    simp only [mdSafeB, Bool.and_eq_true, Bool.not_eq_true'] at h
    simp only [renderBlockMd]
    refine hasDDL_joinSep (chars "\n") (by decide) (by decide) (by decide) _ ?_
    intro l hl
    rcases attribution with _ | attr
    · dsimp only at hl
      rcases List.mem_map.mp hl with ⟨x, hx, rfl⟩
      exact hasDDL_app_end _ _ (by decide) (by decide) (rustLines_safe content h.1 x hx)
    · dsimp only at hl
      rcases List.mem_append.mp hl with hl2 | hl2
      · rcases List.mem_map.mp hl2 with ⟨x, hx, rfl⟩
        exact hasDDL_app_end _ _ (by decide) (by decide) (rustLines_safe content h.1 x hx)
      · simp only [List.mem_cons, List.not_mem_nil, or_false] at hl2
        subst hl2
        have hattr : hasDDL attr = false := by simpa using h.2
        exact hasDDL_app_end _ _ (by decide) (by decide) hattr
  | cta label href primary icon sp =>
    simp only [mdSafeB, Bool.and_eq_true, Bool.not_eq_true'] at h
    simp only [renderBlockMd]
    have h1 : hasDDL (chars "[" ++ label) = false :=
      hasDDL_app_end _ _ (by decide) (by decide) h.1
    have h2 : hasDDL (chars "[" ++ label ++ chars "](") = false :=
      hasDDL_app_start _ _ h1 (by decide) (by decide)
    have h3 : hasDDL (chars "[" ++ label ++ chars "](" ++ href) = false :=
      hasDDL_app_end _ _ h2 (endOK_append _ _ (by decide) (by decide)) h.2
    exact hasDDL_app_start _ _ h3 (by decide) (by decide)
  | nav items logo sp =>
    simp only [mdSafeB] at h
    simp only [renderBlockMd]
    refine hasDDL_joinSep (chars "\n") (by decide) (by decide) (by decide) _ ?_
    intro l hl
    rcases List.mem_map.mp hl with ⟨item, hitem, rfl⟩
    have hi := List.all_eq_true.mp h item hitem
    simp only [Bool.and_eq_true, Bool.not_eq_true'] at hi
    have h1 : hasDDL (chars "- [" ++ item.label) = false :=
      hasDDL_app_end _ _ (by decide) (by decide) hi.1
    have h2 : hasDDL (chars "- [" ++ item.label ++ chars "](") = false :=
      hasDDL_app_start _ _ h1 (by decide) (by decide)
    have h3 : hasDDL (chars "- [" ++ item.label ++ chars "](" ++ item.href) = false :=
      hasDDL_app_end _ _ h2 (endOK_append _ _ (by decide) (by decide)) hi.2
    exact hasDDL_app_start _ _ h3 (by decide) (by decide)
  | heroImage src alt sp =>
    simp only [mdSafeB, Bool.and_eq_true, Bool.not_eq_true'] at h
    simp only [renderBlockMd]
    have halt : hasDDL (alt.getD (chars "Hero image")) = false := by
      rcases alt with _ | a
      · decide
      · simpa using h.2
    have h1 : hasDDL (chars "![" ++ alt.getD (chars "Hero image")) = false :=
      hasDDL_app_end _ _ (by decide) (by decide) halt
    have h2 : hasDDL (chars "![" ++ alt.getD (chars "Hero image") ++ chars "](") = false :=
      hasDDL_app_start _ _ h1 (by decide) (by decide)
    have h3 : hasDDL (chars "![" ++ alt.getD (chars "Hero image") ++ chars "]("
        ++ src) = false :=
      hasDDL_app_end _ _ h2 (endOK_append _ _ (by decide) (by decide)) h.1
    exact hasDDL_app_start _ _ h3 (by decide) (by decide)
  | testimonial content author role company sp =>
    simp only [mdSafeB, Bool.and_eq_true, Bool.not_eq_true'] at h
    simp only [renderBlockMd]
    have hdet : ∀ d ∈ ([author, role, company].filterMap id), hasDDL d = false := by
      intro d hd
      rcases List.mem_filterMap.mp hd with ⟨o, ho, hoid⟩
      simp only [List.mem_cons, List.not_mem_nil, or_false] at ho
      simp only [id_eq] at hoid
      rcases ho with rfl | rfl | rfl
      · subst hoid; simpa using h.1.1.2
      · subst hoid; simpa using h.1.2
      · subst hoid; simpa using h.2
    refine hasDDL_joinSep (chars "\n") (by decide) (by decide) (by decide) _ ?_
    intro l hl
    split at hl
    · rcases List.mem_append.mp hl with hl2 | hl2
      · rcases List.mem_map.mp hl2 with ⟨x, hx, rfl⟩
        exact hasDDL_app_end _ _ (by decide) (by decide)
          (rustLines_safe content h.1.1.1 x hx)
      · simp only [List.mem_cons, List.not_mem_nil, or_false] at hl2
        subst hl2
        have hJ := hasDDL_joinSep (chars ", ") (by decide) (by decide) (by decide) _ hdet
        exact hasDDL_app_end _ _ (by decide) (by decide) hJ
    · rcases List.mem_map.mp hl with ⟨x, hx, rfl⟩
      exact hasDDL_app_end _ _ (by decide) (by decide)
        (rustLines_safe content h.1.1.1 x hx)
  | style properties sp => rfl
  | faq items sp =>
    simp only [mdSafeB] at h
    simp only [renderBlockMd]
    refine hasDDL_joinSep (chars "\n\n") (by decide) (by decide) (by decide) _ ?_
    intro l hl
    rcases List.mem_map.mp hl with ⟨item, hitem, rfl⟩
    have hi := List.all_eq_true.mp h item hitem
    simp only [Bool.and_eq_true, Bool.not_eq_true'] at hi
    have h1 : hasDDL (chars "### " ++ item.question) = false :=
      hasDDL_app_end _ _ (by decide) (by decide) hi.1
    have h2 : hasDDL (chars "### " ++ item.question ++ chars "\n\n") = false :=
      hasDDL_app_start _ _ h1 (by decide) (by decide)
    exact hasDDL_app_end _ _ h2 (endOK_append _ _ (by decide) (by decide)) hi.2
  | pricingTable headers rows sp =>
    simp only [mdSafeB, Bool.and_eq_true] at h
    simp only [renderBlockMd]
    split
    · rfl
    · refine hasDDL_tableRender headers rows ?_ ?_
      · intro x hx
        have := List.all_eq_true.mp h.1 x hx
        simpa using this
      · intro r hr c hc
        have := List.all_eq_true.mp (List.all_eq_true.mp h.2 r hr) c hc
        simpa using this
  | site domain properties sp =>
    simp only [mdSafeB, Bool.and_eq_true, Bool.not_eq_true'] at h
    simp only [renderBlockMd]
    have hprop : ∀ l ∈ properties.map
        (fun p => chars "- " ++ p.key ++ chars ": " ++ p.value), hasDDL l = false := by
      intro l hl
      rcases List.mem_map.mp hl with ⟨p, hp, rfl⟩
      have hi := List.all_eq_true.mp h.2 p hp
      simp only [Bool.and_eq_true, Bool.not_eq_true'] at hi
      have h1 : hasDDL (chars "- " ++ p.key) = false :=
        hasDDL_app_end _ _ (by decide) (by decide) hi.1
      have h2 : hasDDL (chars "- " ++ p.key ++ chars ": ") = false :=
        hasDDL_app_start _ _ h1 (by decide) (by decide)
      exact hasDDL_app_end _ _ h2 (endOK_append _ _ (by decide) (by decide)) hi.2
    refine hasDDL_joinSep (chars "\n") (by decide) (by decide) (by decide) _ ?_
    intro l hl
    rcases domain with _ | d
    · dsimp only at hl
      rcases List.mem_append.mp hl with hl2 | hl2
      · simp only [List.mem_cons, List.not_mem_nil, or_false] at hl2
        subst hl2
        decide
      · exact hprop l hl2
    · dsimp only at hl
      rcases List.mem_append.mp hl with hl2 | hl2
      · rcases List.mem_append.mp hl2 with hl3 | hl3
        · simp only [List.mem_cons, List.not_mem_nil, or_false] at hl3
          subst hl3
          decide
        · simp only [List.mem_cons, List.not_mem_nil, or_false] at hl3
          subst hl3
          have hd : hasDDL d = false := by simpa using h.1
          exact hasDDL_app_end _ _ (by decide) (by decide) hd
      · exact hprop l hl2
  | page route layout title sidebar content children sp =>
    simp only [mdSafeB, Bool.and_eq_true, Bool.not_eq_true'] at h
    simp only [renderBlockMd]
    rcases title with _ | t
    · exact h.2
    · have ht : hasDDL t = false := by simpa using h.1
      have h1 : hasDDL (chars "## " ++ t) = false :=
        hasDDL_app_end _ _ (by decide) (by decide) ht
      have h2 : hasDDL (chars "## " ++ t ++ chars "\n\n") = false :=
        hasDDL_app_start _ _ h1 (by decide) (by decide)
      exact hasDDL_app_end _ _ h2 (endOK_append _ _ (by decide) (by decide)) h.2

theorem openingDirective_not_closing (t : Str) (x : Nat × Str × Str)
    (h : openingDirective t = some x) : closingDirectiveDepth t = none := by
  by_contra hc
  rcases Option.ne_none_iff_exists.mp hc with ⟨k, hk⟩
  have hall : t.all (fun c => c = ':') = true := by
    unfold closingDirectiveDepth at hk
    by_contra hna
    simp only [ne_eq, decide_eq_true_eq] at hk
    split at hk
    · rename_i hcond
      exact hna (by exact_mod_cast hcond.2.1)
    · exact Option.noConfusion hk
  have hdrop : t.drop ((t.takeWhile (fun c => c = ':')).length) = [] := by
    have : t.takeWhile (fun c => decide (c = ':')) = t := by
      rw [List.takeWhile_eq_self_iff]
      intro c hc
      simpa using List.all_eq_true.mp hall c hc
    simp only [List.takeWhile] at *
    rw [this]
    simp
  unfold openingDirective at h
  split at h
  · exact Option.noConfusion h
  · simp [hdrop] at h

theorem sccGo_sibling_aborts (d : Nat) (line : Str) (rest : List Str)
    (hline : ∃ n a, openingDirective (trimStr line) = some (d, n, a)) :
    ∀ pre, (∀ l ∈ pre, closingDirectiveDepth (trimStr l) = none ∧
        ∀ dd n a, openingDirective (trimStr l) = some (dd, n, a) → dd < d) →
      ∀ i acc, sccGo d (pre ++ line :: rest) i 0 acc = none := by
  intro pre
  induction pre with
  | nil =>
    intro _ i acc
    rcases hline with ⟨n, a, hop⟩
    simp only [List.nil_append, sccGo, openingDirective_not_closing _ _ hop, hop]
    simp
  | cons l pre ih =>
    intro hpre i acc
    have hl := hpre l (by simp)
    have hih := ih (fun x hx => hpre x (List.mem_cons_of_mem _ hx))
    simp only [List.cons_append, sccGo, hl.1]
    rcases hop : openingDirective (trimStr l) with _ | ⟨dd, n, a⟩
    · simp only [hop]
      exact hih _ _
    · have hdd : dd < d := hl.2 dd n a hop
      simp only [hop]
      rw [if_neg (fun hc => absurd (And.left hc) (by omega)),
        if_neg (by omega : ¬ d < dd)]
      simpa using hih (i + 1) (acc ++ [l])

theorem scanContainerClose_sibling_aborts (lines : List Str) (start d : Nat)
    (pre : List Str) (line : Str) (rest : List Str)
    (hsplit : lines.drop start = pre ++ line :: rest)
    (hpre : ∀ l ∈ pre, closingDirectiveDepth (trimStr l) = none ∧
        ∀ dd n a, openingDirective (trimStr l) = some (dd, n, a) → dd < d)
    (hline : ∃ n a, openingDirective (trimStr line) = some (d, n, a)) :
    scanContainerClose lines start d = none := by
  unfold scanContainerClose
  rw [hsplit]
  exact sccGo_sibling_aborts d line rest hline pre hpre start []

theorem tabsGo_acc (rest : List Str) (curLabel : Option Str) (curLines : List Str)
    (acc : List TabPanel) : ∃ t, tabsGo rest curLabel curLines acc = acc ++ t := by
  induction rest generalizing curLabel curLines acc with
  | nil =>
    rcases curLabel with _ | label
    · simp only [tabsGo]
      split
      · split
        · exact ⟨_, rfl⟩
        · exact ⟨[], by simp⟩
      · exact ⟨[], by simp⟩
    · exact ⟨_, rfl⟩
  | cons l rest ih =>
    rcases hh : tabHeading (trimStr l) with _ | heading
    · simp only [tabsGo, hh]
      exact ih _ _ _
    · rcases curLabel with _ | label
      · simp only [tabsGo, hh]
        exact ih _ _ _
      · simp only [tabsGo, hh]
        rcases ih (some (trimStr heading)) []
          (acc ++ [⟨label, trimStr (joinSep (chars "\n") curLines)⟩]) with ⟨t, ht⟩
        rw [ht, List.append_assoc]
        exact ⟨_, rfl⟩

theorem tabsGo_skip_pre (pre : List Str) (rest' : List Str) (acc : List TabPanel)
    (hpre : ∀ l ∈ pre, tabHeading (trimStr l) = none) :
    ∀ curLines, tabsGo (pre ++ rest') none curLines acc =
      tabsGo rest' none (curLines ++ pre) acc := by
  induction pre with
  | nil => simp
  | cons l pre ih =>
    intro curLines
    have hl : tabHeading (trimStr l) = none := hpre l (by simp)
    simp only [List.cons_append, tabsGo, hl, List.append_eq]
    rw [ih (fun x hx => hpre x (List.mem_cons_of_mem _ hx)) (curLines ++ [l])]
    simp

theorem tabsGo_labelled (rest : List Str) (label : Str) (acc : List TabPanel) :
    ∀ curLines, ∃ t, tabsGo rest (some label) curLines acc =
      acc ++ ⟨label, trimStr (joinSep (chars "\n")
        (curLines ++ rest.takeWhile fun l => (tabHeading (trimStr l)).isNone))⟩ :: t := by
  induction rest with
  | nil => exact fun curLines => ⟨[], by simp [tabsGo]⟩
  | cons l rest ih =>
    intro curLines
    rcases hh : tabHeading (trimStr l) with _ | heading
    · rcases ih (curLines ++ [l]) with ⟨t, ht⟩
      refine ⟨t, ?_⟩
      simp only [tabsGo, hh, ht, List.takeWhile_cons, Option.isNone_none]
      simp [hh]
    · rcases tabsGo_acc rest (some (trimStr heading)) []
        (acc ++ [⟨label, trimStr (joinSep (chars "\n") curLines)⟩]) with ⟨t, ht⟩
      refine ⟨t, ?_⟩
      simp only [tabsGo, hh, ht, List.takeWhile_cons]
      simp [hh]

theorem faqGo_acc (rest : List Str) (curQ : Option Str) (curLines : List Str)
    (acc : List FaqItem) : ∃ t, faqGo rest curQ curLines acc = acc ++ t := by
  induction rest generalizing curQ curLines acc with
  | nil =>
    rcases curQ with _ | q
    · exact ⟨[], by simp [faqGo]⟩
    · exact ⟨_, rfl⟩
  | cons l rest ih =>
    rcases hh : faqHeading (trimStr l) with _ | heading
    · simp only [faqGo, hh]
      exact ih _ _ _
    · rcases curQ with _ | q
      · simp only [faqGo, hh]
        exact ih _ _ _
      · simp only [faqGo, hh]
        rcases ih (some (trimStr heading)) []
          (acc ++ [⟨q, trimStr (joinSep (chars "\n") curLines)⟩]) with ⟨t, ht⟩
        rw [ht, List.append_assoc]
        exact ⟨_, rfl⟩

theorem faqGo_skip_pre (pre : List Str) (rest' : List Str) (acc : List FaqItem)
    (hpre : ∀ l ∈ pre, faqHeading (trimStr l) = none) :
    ∀ curLines, faqGo (pre ++ rest') none curLines acc =
      faqGo rest' none (curLines ++ pre) acc := by
  induction pre with
  | nil => simp
  | cons l pre ih =>
    intro curLines
    have hl : faqHeading (trimStr l) = none := hpre l (by simp)
    simp only [List.cons_append, faqGo, hl, List.append_eq]
    rw [ih (fun x hx => hpre x (List.mem_cons_of_mem _ hx)) (curLines ++ [l])]
    simp

theorem faqGo_labelled (rest : List Str) (q : Str) (acc : List FaqItem) :
    ∀ curLines, ∃ t, faqGo rest (some q) curLines acc =
      acc ++ ⟨q, trimStr (joinSep (chars "\n")
        (curLines ++ rest.takeWhile fun l => (faqHeading (trimStr l)).isNone))⟩ :: t := by
  induction rest with
  | nil => exact fun curLines => ⟨[], by simp [faqGo]⟩
  | cons l rest ih =>
    intro curLines
    rcases hh : faqHeading (trimStr l) with _ | heading
    · rcases ih (curLines ++ [l]) with ⟨t, ht⟩
      refine ⟨t, ?_⟩
      simp only [faqGo, hh, ht, List.takeWhile_cons, Option.isNone_none]
      simp [hh]
    · rcases faqGo_acc rest (some (trimStr heading)) []
        (acc ++ [⟨q, trimStr (joinSep (chars "\n") curLines)⟩]) with ⟨t, ht⟩
      refine ⟨t, ?_⟩
      simp only [faqGo, hh, ht, List.takeWhile_cons]
      simp [hh]


theorem validateFrontMatter_bland (doc : SurfDoc) :
    ∀ d ∈ validateFrontMatter doc, d.severity = .warning ∧
      occursList (chars "label") d.message = false ∧
      occursList (chars "value") d.message = false := by
  intro d hd
  rcases doc with ⟨fm, blocks, src⟩
  rcases fm with _ | ⟨t, dt⟩
  · simp only [validateFrontMatter, List.mem_cons, List.not_mem_nil, or_false] at hd
    rcases hd with rfl | rfl <;> exact ⟨rfl, by decide, by decide⟩
  · rcases t with _ | t <;> rcases dt with _ | dt <;> simp [validateFrontMatter] at hd
    · rcases hd with rfl | rfl <;> exact ⟨rfl, by decide, by decide⟩
    · subst hd; exact ⟨rfl, by decide, by decide⟩
    · subst hd; exact ⟨rfl, by decide, by decide⟩

/-- C1: for every behaviour of the external YAML front-matter parser and for
every input string — including empty, malformed, and adversarial input —
`parse` returns a result: every checked slice, index and arithmetic step in
front-matter extraction, block scanning and resolution is reached only in a
defined state (`none` in the model marks a would-be panic and is never hit). -/
theorem c1_parse_total (yamlP : Str → Except Str FrontMatter) (input : Str) :
    (parse yamlP input).isSome = true := by
  rcases parse_ok yamlP input with ⟨r, hr, _⟩
  rw [hr]
  rfl

/-- C2 (amended): every top-level block of the document returned by `parse`
has a span with `1 ≤ start_line ≤ end_line` and
`0 ≤ start_offset ≤ end_offset ≤ len(source)`; the child blocks owned by a
`Page` block, however, all carry the placeholder span `⟨0,0,0,0⟩`
(`dummy_span` in `blocks.rs`), so the original claim is false for them. -/
theorem c2_spans_resolved (yamlP : Str → Except Str FrontMatter) (input : Str)
    (r : ParseResult) (hr : parse yamlP input = some r) :
    ∀ b ∈ r.doc.blocks, spanValid r.doc.source.length b.span ∧
      childSpansDummy b = true := by
  rcases parse_ok yamlP input with ⟨r2, hr2, hval⟩
  rw [hr] at hr2
  have heq := Option.some.inj hr2
  subst heq
  exact hval

theorem c2_spans_resolved_witness :
    spanValid (chars "x").length (Block.markdown (chars "x") ⟨1, 1, 0, 1⟩).span ∧
      childSpansDummy (Block.markdown (chars "x") ⟨1, 1, 0, 1⟩) = true :=
  c2_spans_resolved yamlNone (chars "x")
    ⟨⟨none, [.markdown (chars "x") ⟨1, 1, 0, 1⟩], chars "x"⟩, []⟩ (by rfl)
    (.markdown (chars "x") ⟨1, 1, 0, 1⟩) (by simp)

/-- C2 counterexample: parsing `::page[route="/"]\nhello\n::\n` produces a
`Page` block one of whose children has `start_line = 0`, violating
`1 ≤ start_line`. -/
theorem c2_page_child_dummy_span_cex :
    ∃ r, parse yamlNone (chars "::page[route=\"/\"]\nhello\n::\n") = some r ∧
      (r.doc.blocks.any fun b =>
        match b with
        | .page _ _ _ _ _ children _ => children.any (fun c => c.span.startLine == 0)
        | _ => false) = true :=
  ⟨_, rfl, by decide⟩

/-- C3 (amended): if the document has no `Unknown` passthrough block and no
rendered text field contains `::` immediately followed by a letter, then the
Markdown renderer output never contains `::` followed by a known block name.
The original unconditional claim is false: `Unknown` blocks and verbatim
user text reproduce directive-like sequences (see the counterexample). -/
theorem c3_markdown_no_known_directive (doc : SurfDoc)
    (h : doc.blocks.all mdSafeB = true) :
    containsKnownDirective (toMarkdown doc) = false := by
  have hD : hasDDL (toMarkdown doc) = false := by
    simp only [toMarkdown]
    refine hasDDL_joinSep (chars "\n\n") (by decide) (by decide) (by decide) _ ?_
    intro l hl
    rcases List.mem_map.mp hl with ⟨b, hb, rfl⟩
    exact mdSafe_render b (List.all_eq_true.mp h b hb)
  rcases hck : containsKnownDirective (toMarkdown doc) with _ | _
  · rfl
  · rw [containsKnown_hasDDL _ hck] at hD
    exact Bool.noConfusion hD

theorem c3_markdown_no_known_directive_witness :
    containsKnownDirective (toMarkdown
      ⟨none, [.markdown (chars "hello") ⟨1, 1, 0, 5⟩], chars "hello"⟩) = false :=
  c3_markdown_no_known_directive
    ⟨none, [.markdown (chars "hello") ⟨1, 1, 0, 5⟩], chars "hello"⟩ (by decide)

/-- C3 counterexample: the markdown text `a ::callout` is reproduced
verbatim by the renderer, so the output contains `::` followed by the known
block name `callout`. -/
theorem c3_directive_leak_cex :
    ∃ r, parse yamlNone (chars "a ::callout\n") = some r ∧
      containsKnownDirective (toMarkdown r.doc) = true :=
  ⟨_, rfl, by decide⟩

/-- C5: parsing `::metric[label="MRR" value="$2K"]\n` (no closing marker)
yields a Warning diagnostic and the document still contains a Metric block
with label `MRR` and value `$2K`. -/
theorem c5_unclosed_metric_degrades :
    ∃ r, parse yamlNone (chars "::metric[label=\"MRR\" value=\"$2K\"]\n") = some r ∧
      r.diagnostics.any (fun d => d.severity == .warning) = true ∧
      r.doc.blocks = [.metric (chars "MRR") (chars "$2K") none none ⟨1, 2, 0, 34⟩] :=
  ⟨_, rfl, by decide, by rfl⟩

/-- C6 (amended): when the attribute string of a top-level opening directive
fails to parse, the scanner emits a diagnostic with code `W002` and severity
Warning — not a code in the `E0xx` family — treats the directive's attribute
set as empty, and still produces the block: the scanner step pushes the
directive with an empty attribute set together with the W002 warning, and the
full parse of `::callout[=]\n::\n` still yields the callout block (typed
`info`, the default for an empty attribute set). -/
theorem c6_bad_attrs_warning :
    (∀ (src : Str) (idx : Nat) (line : Str) (st : ScanState) (depth : Nat)
      (name attrsStr : Str) (e : AttrsError),
      st.stack = [] → st.mdLine = none → st.mdOff = none →
      openingDirective (trimStr line) = some (depth, name, attrsStr) →
      parseAttrs attrsStr = .error e →
      scanStep src idx line st = some
        { blocks := st.blocks,
          stack := [⟨name, [], depth, idx + 1, byteStartOfLine src idx,
            min (byteStartOfLine src idx + line.length + 1) src.length⟩],
          mdLine := none, mdOff := none,
          diags := st.diags ++
            [⟨.warning,
              chars "Invalid attributes on " ++ [sq] ++ chars "::" ++ name ++ [sq]
                ++ chars ": Invalid attribute syntax: " ++ e.message,
              some (lineSpan idx idx src), some (chars "W002")⟩] }) ∧
    (∃ r, parse yamlNone (chars "::callout[=]\n::\n") = some r ∧
      r.diagnostics.any (fun d => d.severity == .warning
        && d.code == some (chars "W002")) = true ∧
      r.doc.blocks = [.callout .info none [] ⟨1, 2, 0, 15⟩]) := by
  constructor
  · intro src idx line st depth name attrsStr e hstack hmd hmd2 hopen herr
    have hc := openingDirective_not_closing _ _ hopen
    simp only [scanStep, hc, Option.none_bind, hopen, hstack, hmd, hmd2,
      flushMarkdown, herr, if_pos rfl, Option.map_some]
    rfl
  · exact ⟨_, rfl, by decide, by rfl⟩

/-- C6 counterexample to the original claim: the full parse of
`::callout[=]\n::\n` emits the bad-attribute diagnostic with code `W002`
(severity Warning) and no diagnostic whose code starts with `E`. -/
theorem c6_bad_attrs_code_cex :
    ∃ r, parse yamlNone (chars "::callout[=]\n::\n") = some r ∧
      r.diagnostics.any (fun d => d.code == some (chars "W002")) = true ∧
      (r.diagnostics.any fun d =>
        match d.code with
        | some (c :: _) => c == 'E'
        | _ => false) = false :=
  ⟨_, rfl, by decide, by decide⟩

/-- C7: attribute-value coercion applies only to unquoted values: `key=42`
is Number 42.0, `key="42"` stays String, `key=true` and `key=false` are
Bool, `key=null` is Null, a bare `key` is Bool true, and `key=v1.2` (which
does not parse as an f64) stays String. -/
theorem c7_attr_coercion :
    parseAttrs (chars "[key=42]") = .ok [(chars "key", .num (.fin 42))] ∧
    parseAttrs (chars "[key=\"42\"]") = .ok [(chars "key", .str (chars "42"))] ∧
    parseAttrs (chars "[key=true]") = .ok [(chars "key", .bool true)] ∧
    parseAttrs (chars "[key=false]") = .ok [(chars "key", .bool false)] ∧
    parseAttrs (chars "[key=null]") = .ok [(chars "key", .null)] ∧
    parseAttrs (chars "[key]") = .ok [(chars "key", .bool true)] ∧
    parseAttrs (chars "[key=v1.2]") = .ok [(chars "key", .str (chars "v1.2"))] :=
  ⟨by decide, by decide, by decide, by decide, by decide, by decide, by decide⟩

/-- C8: while re-scanning Page content, an opening directive whose
continuation contains a sibling opening directive at the same depth before
any closer is deemed closer-less (`scan_container_close` returns `none`),
and the page-children loop resolves it through the leaf-directive path as a
directive with empty content — it never consumes the sibling's closer. -/
theorem c8_sibling_never_steals (resolve : Block → Block) (lines : List Str)
    (i d fuel : Nat) (line : Str) (name attrsStr : Str)
    (md : List Str) (children : List Block)
    (pre : List Str) (sib : Str) (rest : List Str) (block : Block)
    (hl : lines[i]? = some line)
    (hop : openingDirective (trimStr line) = some (d, name, attrsStr))
    (hsplit : lines.drop (i + 1) = pre ++ sib :: rest)
    (hpre : ∀ l ∈ pre, closingDirectiveDepth (trimStr l) = none ∧
      ∀ dd n a, openingDirective (trimStr l) = some (dd, n, a) → dd < d)
    (hsib : ∃ n a, openingDirective (trimStr sib) = some (d, n, a))
    (htl : tryParseLeafDirective resolve line = some block) :
    scanContainerClose lines (i + 1) d = none ∧
    (∃ nm ats, block = resolve (.unknown nm ats [] dummySpan)) ∧
    pageGo resolve lines (fuel + 1) i md children =
      pageGo resolve lines fuel (i + 1) []
        (children ++ flushMdLines md ++ [block]) := by
  have hscc : scanContainerClose lines (i + 1) d = none :=
    scanContainerClose_sibling_aborts lines (i + 1) d pre sib rest hsplit hpre hsib
  refine ⟨hscc, ?_, ?_⟩
  · simp only [tryParseLeafDirective] at htl
    repeat' split at htl
    all_goals first
      | exact Option.noConfusion htl
      | (simp only [Option.some.injEq] at htl; exact ⟨_, _, htl.symm⟩)
  · simp only [pageGo, hl, hop, hscc, htl]

theorem c8_sibling_never_steals_witness :
    scanContainerClose [chars "::callout[type=tip]", chars "::callout",
      chars "hi", chars "::"] 1 2 = none ∧
    (∃ nm ats, Block.unknown (chars "callout")
        [(chars "type", .str (chars "tip"))] [] dummySpan =
      id (Block.unknown nm ats [] dummySpan)) ∧
    pageGo id [chars "::callout[type=tip]", chars "::callout",
        chars "hi", chars "::"] 1 0 [] [] =
      pageGo id [chars "::callout[type=tip]", chars "::callout",
        chars "hi", chars "::"] 0 1 []
        ([] ++ flushMdLines [] ++ [Block.unknown (chars "callout")
          [(chars "type", .str (chars "tip"))] [] dummySpan]) :=
  c8_sibling_never_steals id
    [chars "::callout[type=tip]", chars "::callout", chars "hi", chars "::"]
    0 2 0 (chars "::callout[type=tip]") (chars "callout") (chars "[type=tip]")
    [] [] [] (chars "::callout") [chars "hi", chars "::"]
    (Block.unknown (chars "callout") [(chars "type", .str (chars "tip"))] [] dummySpan)
    (by rfl) (by decide) (by rfl)
    (by intro l hl; simp at hl)
    ⟨chars "callout", [], by decide⟩ (by rfl)

/-- C9: a document whose only block is a Metric with empty label and
non-empty value gets exactly one Error-severity diagnostic mentioning
`label` from `validate`, and no diagnostic mentioning `value`. -/
theorem c9_metric_label_validation (fm : Option FrontMatter) (value : Str)
    (trend : Option Trend) (unit : Option Str) (sp : Span) (src : Str)
    (hv : value ≠ []) :
    ((validate ⟨fm, [.metric [] value trend unit sp], src⟩).countP
        (fun d => d.severity == .error && occursList (chars "label") d.message)) = 1 ∧
    ∀ d ∈ validate ⟨fm, [.metric [] value trend unit sp], src⟩,
      occursList (chars "value") d.message = false := by
  have hvb : validateBlock (.metric [] value trend unit sp) =
      [vDiag .error "Metric block is missing required attribute: label" sp "V010"] := by
    simp [validateBlock, hv]
  have hval : validate ⟨fm, [.metric [] value trend unit sp], src⟩ =
      validateFrontMatter ⟨fm, [.metric [] value trend unit sp], src⟩ ++
        [vDiag .error "Metric block is missing required attribute: label" sp "V010"] := by
    simp [validate, hvb]
  constructor
  · rw [hval, List.countP_append]
    have h0 : (validateFrontMatter ⟨fm, [.metric [] value trend unit sp], src⟩).countP
        (fun d => d.severity == .error && occursList (chars "label") d.message) = 0 := by
      rw [List.countP_eq_zero]
      intro d hd
      have := validateFrontMatter_bland _ d hd
      simp [this.1]
    rw [h0]
    have h1 : (fun (d : Diagnostic) => d.severity == .error &&
        occursList (chars "label") d.message)
        (vDiag .error "Metric block is missing required attribute: label" sp "V010")
        = true := by rfl
    simp [List.countP_cons, h1]
  · rw [hval]
    intro d hd
    rcases List.mem_append.mp hd with h | h
    · exact (validateFrontMatter_bland _ d h).2.2
    · simp only [List.mem_cons, List.not_mem_nil, or_false] at h
      subst h
      rfl

theorem c9_metric_label_validation_witness :
    ((validate ⟨none, [.metric [] (chars "$2K") none none ⟨1, 1, 0, 0⟩], []⟩).countP
        (fun d => d.severity == .error && occursList (chars "label") d.message)) = 1 ∧
    ∀ d ∈ validate ⟨none, [.metric [] (chars "$2K") none none ⟨1, 1, 0, 0⟩], []⟩,
      occursList (chars "value") d.message = false :=
  c9_metric_label_validation none (chars "$2K") none none ⟨1, 1, 0, 0⟩ []
    (by decide)

/-- C10: in a tabs block (and identically a faq block) whose content has at
least one heading line, the non-heading lines before the first heading are
prepended to the first labelled panel's (first answer's) content rather than
dropped or turned into a separate panel. -/
theorem c10_preheading_prepended (content : Str) (sp : Span) (pre : List Str)
    (hline : Str) (rest : List Str) (h : Str)
    (hsplit : rustLines content = pre ++ hline :: rest)
    (hpreT : ∀ l ∈ pre, tabHeading (trimStr l) = none)
    (hhT : tabHeading (trimStr hline) = some h)
    (hpreF : ∀ l ∈ pre, faqHeading (trimStr l) = none)
    (hhF : faqHeading (trimStr hline) = some h) :
    (∃ t, parseTabs content sp = .tabs
      (⟨trimStr h, trimStr (joinSep (chars "\n")
        (pre ++ rest.takeWhile fun l => (tabHeading (trimStr l)).isNone))⟩ :: t) sp) ∧
    (∃ t, parseFaq content sp = .faq
      (⟨trimStr h, trimStr (joinSep (chars "\n")
        (pre ++ rest.takeWhile fun l => (faqHeading (trimStr l)).isNone))⟩ :: t) sp) := by
  constructor
  · rcases tabsGo_labelled rest (trimStr h) [] pre with ⟨t, ht⟩
    refine ⟨t, ?_⟩
    unfold parseTabs
    rw [hsplit, tabsGo_skip_pre pre (hline :: rest) [] hpreT []]
    simp only [List.nil_append, tabsGo, hhT, ht]
  · rcases faqGo_labelled rest (trimStr h) [] pre with ⟨t, ht⟩
    refine ⟨t, ?_⟩
    unfold parseFaq
    rw [hsplit, faqGo_skip_pre pre (hline :: rest) [] hpreF []]
    simp only [List.nil_append, faqGo, hhF, ht]

theorem c10_preheading_prepended_witness :
    (∃ t, parseTabs (chars "intro\n## One\nbody") ⟨1, 1, 0, 1⟩ = .tabs
      (⟨trimStr (chars "One"), trimStr (joinSep (chars "\n")
        ([chars "intro"] ++ ([chars "body"].takeWhile
          fun l => (tabHeading (trimStr l)).isNone)))⟩ :: t) ⟨1, 1, 0, 1⟩) ∧
    (∃ t, parseFaq (chars "intro\n## One\nbody") ⟨1, 1, 0, 1⟩ = .faq
      (⟨trimStr (chars "One"), trimStr (joinSep (chars "\n")
        ([chars "intro"] ++ ([chars "body"].takeWhile
          fun l => (faqHeading (trimStr l)).isNone)))⟩ :: t) ⟨1, 1, 0, 1⟩) :=
  c10_preheading_prepended (chars "intro\n## One\nbody") ⟨1, 1, 0, 1⟩
    [chars "intro"] (chars "## One") [chars "body"] (chars "One")
    (by rfl)
    (by intro l hl; simp only [List.mem_singleton] at hl; subst hl; decide)
    (by decide)
    (by intro l hl; simp only [List.mem_singleton] at hl; subst hl; decide)
    (by decide)

end Surf
